import Mathlib

/-!
Shallow embedding of `multi_thread_http_server/server.py` (the HTTP server
core: wire codec, path resolver, host validator, responders, worker pool),
with theorems settling the specification claims.

Python strings are modelled as lists of Unicode code points (`List Nat`),
because Python `str` may hold lone surrogates that Lean's `Char` cannot.
Byte strings are lists of naturals below 256.  Fallible operations return
`Option`.  Library calls (`str.strip`, `int`, `urllib.parse`, `os.path`,
`json`) are modelled from their documented behaviour; server code is
translated line by line from the source.
-/

set_option maxRecDepth 20000

namespace Srv

/-! ### Python string primitives -/

/-- A Python `str`: a sequence of Unicode code points. -/
abbrev PyStr := List Nat

/-- Byte strings (`bytes`): naturals below 256. -/
abbrev Bytes := List Nat

/-- Embed a Lean string literal as a `PyStr`. -/
def pys (s : String) : PyStr := s.toList.map Char.toNat

/-- Python `str.isspace` on the code points that can appear here
(ASCII whitespace, the C1 separators, NEL and NBSP from Latin-1). -/
def isPySpace (c : Nat) : Bool :=
  (9 ≤ c && c ≤ 13) || (28 ≤ c && c ≤ 31) || c == 32 || c == 133 || c == 160

/-- Drop leading whitespace (`str.lstrip`). -/
def pyLstrip : PyStr → PyStr
  | [] => []
  | c :: rest => if isPySpace c then pyLstrip rest else c :: rest

/-- Python `str.strip`: drop whitespace from both ends. -/
def pystrip (s : PyStr) : PyStr := ((pyLstrip s.reverse).reverse : PyStr) |> pyLstrip

/-- Python `str.lower` restricted to code points below 256 (all that ISO-8859-1
decoding can produce): ASCII `A`-`Z` and Latin-1 `À`-`Þ` (except `×`) gain 32. -/
def pyLowerChar (c : Nat) : Nat :=
  if (65 ≤ c && c ≤ 90) || (192 ≤ c && c ≤ 214) || (216 ≤ c && c ≤ 222) then c + 32 else c

def pyLower (s : PyStr) : PyStr := s.map pyLowerChar

/-- `needle` occurs as a contiguous subsequence of `hay` (Python `in`). -/
def containsSeq (needle hay : List Nat) : Bool :=
  match hay with
  | [] => needle.isPrefixOf ([] : List Nat)
  | _ :: t => needle.isPrefixOf hay || containsSeq needle t

/-- Split at the first occurrence of separator `sep` (Python `split(sep, 1)`
when the separator occurs); `none` when `sep` does not occur. -/
def splitOnceSub (sep : List Nat) : List Nat → Option (List Nat × List Nat)
  | [] => if sep.isPrefixOf ([] : List Nat) then some ([], []) else none
  | c :: t =>
    if sep.isPrefixOf (c :: t) then some ([], (c :: t).drop sep.length)
    else match splitOnceSub sep t with
      | some (a, b) => some (c :: a, b)
      | none => none

/-- Python `s.split(sep)` for a non-empty separator: all fields
(fuel-recursive; the fuel never runs out on the wrapper's argument). -/
def splitAllSubAux (sep : List Nat) : Nat → List Nat → List (List Nat)
  | 0, s => [s]
  | fuel + 1, s =>
    match splitOnceSub sep s with
    | none => [s]
    | some (a, b) => a :: splitAllSubAux sep fuel b

def splitAllSub (sep s : List Nat) : List (List Nat) :=
  splitAllSubAux sep (s.length + 1) s

/-- Python `s.split()` (no argument): split on runs of whitespace,
discarding empty fields. -/
def splitWsAux (cur : List Nat) (acc : List (List Nat)) : PyStr → List (List Nat)
  | [] => if cur = [] then acc.reverse else (cur.reverse :: acc).reverse
  | c :: t =>
    if isPySpace c then
      if cur = [] then splitWsAux [] acc t else splitWsAux [] (cur.reverse :: acc) t
    else splitWsAux (c :: cur) acc t

def splitWs (s : PyStr) : List PyStr := splitWsAux [] [] s

/-! ### Decimal numerals and Python `int()` -/

def isDigitCp (c : Nat) : Bool := 48 ≤ c && c ≤ 57

/-- Digits of `n` in most-significant-first order, as code points; fuel
recursion so the kernel can evaluate it (`n + 1` steps always suffice). -/
def natToDecAux : Nat → Nat → PyStr
  | 0, _ => []
  | fuel + 1, n => if n = 0 then [] else natToDecAux fuel (n / 10) ++ [n % 10 + 48]

/-- Decimal numeral of a natural, as code points (`repr` of a Python int). -/
def natToDec (n : Nat) : PyStr :=
  if n = 0 then [48] else natToDecAux (n + 1) n

/-- Decimal numeral of an integer (`f"{n}"`). -/
def intToDec (n : Int) : PyStr :=
  if n < 0 then 45 :: natToDec (-n).toNat else natToDec n.toNat

/-- Digit run with single underscores allowed between digits, as Python's
`int()` grammar after the sign; the first code point was already a digit. -/
def digitsUSAux : Nat → PyStr → Option Nat
  | acc, [] => some acc
  | acc, c :: t =>
    if isDigitCp c then digitsUSAux (acc * 10 + (c - 48)) t
    else if c == 95 then
      match t with
      | d :: t' => if isDigitCp d then digitsUSAux (acc * 10 + (d - 48)) t' else none
      | [] => none
    else none

def digitsUS : PyStr → Option Nat
  | c :: t => if isDigitCp c then digitsUSAux (c - 48) t else none
  | [] => none

/-- Python `int(s)` on a string: surrounding whitespace stripped, optional
sign, then ASCII digits with single interior underscores.  (Python also
accepts non-ASCII decimal digits; those are outside this model.) -/
def pyIntParse (s : PyStr) : Option Int :=
  match pystrip s with
  | 43 :: r => (digitsUS r).map Int.ofNat
  | 45 :: r => (digitsUS r).map (fun n => -(n : Int))
  | r => (digitsUS r).map Int.ofNat

/-! ### Python `dict` with string keys and values -/

/-- Insertion-ordered mapping; assignment updates an existing key in place,
otherwise appends.  Keys are unique by construction. -/
abbrev PyDict := List (PyStr × PyStr)

def dictSet : PyDict → PyStr → PyStr → PyDict
  | [], k, v => [(k, v)]
  | (k', v') :: t, k, v =>
    if k' = k then (k', v) :: t else (k', v') :: dictSet t k v

def dictGet (d : PyDict) (k : PyStr) : Option PyStr :=
  (d.find? (fun p => decide (p.1 = k))).map (·.2)

/-- `dict.get(k, default)`. -/
def dictGetD (d : PyDict) (k : PyStr) (dflt : PyStr) : PyStr :=
  (dictGet d k).getD dflt

/-! ### Wire codec: `parse_http_request` -/

structure Request where
  method : PyStr
  path : PyStr
  version : PyStr
  headers : PyDict
  body : Bytes
deriving DecidableEq

/-- One step of the header-accumulation loop of `parse_http_request`: a line
holding a colon is split at the first colon; name and value are
whitespace-stripped and assigned into the dict (so a later occurrence
overwrites an earlier one); other lines are ignored. -/
def hdrStep (d : PyDict) (hdr : PyStr) : PyDict :=
  match splitOnceSub (pys ":") hdr with
  | some (k, v) => dictSet d (pystrip k) (pystrip v)
  | none => d

def headerLinesToDict (lines : List PyStr) : PyDict := lines.foldl hdrStep []

/-- `parse_http_request(raw_bytes)`: ISO-8859-1 decoding is the identity on
code points, so the byte buffer doubles as the decoded text.  Split once on
CRLFCRLF into head and body (absent terminator: whole buffer is the head and
the body is empty); the first CRLF-line must split into exactly three
whitespace-separated tokens; remaining lines feed the header dict. -/
def parse_http_request (raw : Bytes) : Option Request :=
  let parts := splitOnceSub (pys "\r\n\r\n") raw
  let head := match parts with | some (h, _) => h | none => raw
  let body : Bytes := match parts with | some (_, b) => b | none => []
  match splitAllSub (pys "\r\n") head with
  | [] => none
  | first :: restLines =>
    match splitWs first with
    | [m, p, v] => some ⟨m, p, v, headerLinesToDict restLines, body⟩
    | _ => none

/-! ### Host validator: `valid_host_header` -/

inductive HostResult where
  | bad (code : Nat)
  | ok (hostport : PyStr)
deriving DecidableEq

/-- The `acceptable_hosts` set built by `valid_host_header` (as a list; only
membership is consumed, so duplicates are immaterial). -/
def acceptableHosts (serverHost : PyStr) (serverPort : Int) : List PyStr :=
  let base := [serverHost ++ pys ":" ++ intToDec serverPort]
  if serverHost = pys "127.0.0.1" ∨ serverHost = pys "localhost" ∨
      serverHost = pys "0.0.0.0" then
    base ++ [pys "localhost:" ++ intToDec serverPort,
             pys "127.0.0.1:" ++ intToDec serverPort]
  else base

/-- The final membership test of `valid_host_header` on the parsed
`host`/`port` pair (`f"{host}:{port}" in acceptable_hosts`). -/
def hostCheck (host : PyStr) (port : Int) (serverHost : PyStr) (serverPort : Int) :
    HostResult :=
  let hp := host ++ pys ":" ++ intToDec port
  if hp ∈ acceptableHosts serverHost serverPort then .ok hp else .bad 403

/-- `valid_host_header(host_header, server_host, server_port)`: a missing or
empty header is 400; otherwise strip, split at the first colon when present
(non-integer port: 400; no colon: the server port), then the membership
test. -/
def valid_host_header (hostHeader : Option PyStr) (serverHost : PyStr)
    (serverPort : Int) : HostResult :=
  match hostHeader with
  | none => .bad 400
  | some hv0 =>
    if hv0 = [] then .bad 400
    else
      let hv := pystrip hv0
      match splitOnceSub (pys ":") hv with
      | some (host, portStr) =>
        match pyIntParse portStr with
        | none => .bad 400
        | some port => hostCheck host port serverHost serverPort
      | none => hostCheck hv serverPort serverHost serverPort

/-! ### Keep-alive decision (connection handler, lines 265-266) -/

/-- `conn_hdr = headers.get("Connection", "").lower()`;
`keep_alive = (conn_hdr != "close") if version == "HTTP/1.1" else
(conn_hdr == "keep-alive")`. -/
def keepAliveOf (version : PyStr) (headers : PyDict) : Bool :=
  let connHdr := pyLower (dictGetD headers (pys "Connection") [])
  if version = pys "HTTP/1.1" then connHdr != pys "close"
  else connHdr == pys "keep-alive"

/-- Case-insensitive equality of header values, as the claims phrase it. -/
def ciEq (a b : PyStr) : Prop := pyLower a = pyLower b

/-! ### UTF-8 -/

/-- Decode one UTF-8 sequence (strict table: no overlongs, no surrogates,
ceiling U+10FFFF); returns the code point and the remaining bytes. -/
def utf8DecodeOne : Bytes → Option (Nat × Bytes)
  | [] => none
  | b :: rest =>
    if b < 128 then some (b, rest)
    else if 194 ≤ b ∧ b ≤ 223 then
      match rest with
      | c1 :: r =>
        if 128 ≤ c1 ∧ c1 ≤ 191 then some ((b - 192) * 64 + (c1 - 128), r) else none
      | [] => none
    else if 224 ≤ b ∧ b ≤ 239 then
      match rest with
      | c1 :: c2 :: r =>
        if (if b = 224 then 160 else 128) ≤ c1 ∧ c1 ≤ (if b = 237 then 159 else 191) ∧
            128 ≤ c2 ∧ c2 ≤ 191 then
          some ((b - 224) * 4096 + (c1 - 128) * 64 + (c2 - 128), r)
        else none
      | _ => none
    else if 240 ≤ b ∧ b ≤ 244 then
      match rest with
      | c1 :: c2 :: c3 :: r =>
        if (if b = 240 then 144 else 128) ≤ c1 ∧ c1 ≤ (if b = 244 then 143 else 191) ∧
            128 ≤ c2 ∧ c2 ≤ 191 ∧ 128 ≤ c3 ∧ c3 ≤ 191 then
          some ((b - 240) * 262144 + (c1 - 128) * 4096 + (c2 - 128) * 64 + (c3 - 128), r)
        else none
      | _ => none
    else none

/-- `bytes.decode("utf-8")` (strict): `none` models `UnicodeDecodeError`. -/
def utf8DecodeAux : Nat → Bytes → Option PyStr
  | _, [] => some []
  | 0, _ => none
  | fuel + 1, bs =>
    match utf8DecodeOne bs with
    | some (cp, r) => (utf8DecodeAux fuel r).map (cp :: ·)
    | none => none

def utf8Decode (bs : Bytes) : Option PyStr := utf8DecodeAux (bs.length + 1) bs

/-- `bytes.decode("utf-8", errors="replace")`: undecodable positions yield
U+FFFD, advancing one byte (an approximation of CPython's maximal-subpart
substitution, which can merge several bad bytes into one U+FFFD). -/
def utf8ReplaceAux : Nat → Bytes → PyStr
  | _, [] => []
  | 0, _ => []
  | fuel + 1, b :: rest =>
    match utf8DecodeOne (b :: rest) with
    | some (cp, r) => cp :: utf8ReplaceAux fuel r
    | none => 65533 :: utf8ReplaceAux fuel rest

def utf8Replace (bs : Bytes) : PyStr := utf8ReplaceAux (bs.length + 1) bs

/-! ### `urllib.parse.unquote` and the path component of `urlparse` -/

def hexDigitVal (c : Nat) : Option Nat :=
  if 48 ≤ c ∧ c ≤ 57 then some (c - 48)
  else if 97 ≤ c ∧ c ≤ 102 then some (c - 87)
  else if 65 ≤ c ∧ c ≤ 70 then some (c - 55)
  else none

/-- Collect a maximal run of `%XX` byte escapes. -/
def grabPctBytes : PyStr → Bytes × PyStr
  | 37 :: a :: b :: rest =>
    match hexDigitVal a, hexDigitVal b with
    | some x, some y =>
      let (bs, r) := grabPctBytes rest
      ((16 * x + y) :: bs, r)
    | _, _ => ([], 37 :: a :: b :: rest)
  | other => ([], other)

/-- `unquote(s)`: decode maximal `%XX` runs as UTF-8 (errors replaced);
everything else, including malformed `%`, passes through. -/
def unquoteAux : Nat → PyStr → PyStr
  | 0, s => s
  | fuel + 1, s =>
    match s with
    | [] => []
    | c :: t =>
      if c = 37 then
        match grabPctBytes (c :: t) with
        | ([], _) => c :: unquoteAux fuel t
        | (bs, r) => utf8Replace bs ++ unquoteAux fuel r
      else c :: unquoteAux fuel t

def unquote (s : PyStr) : PyStr := unquoteAux (s.length + 1) s

def isAsciiAlpha (c : Nat) : Bool := (65 ≤ c && c ≤ 90) || (97 ≤ c && c ≤ 122)

def isSchemeChar (c : Nat) : Bool :=
  isAsciiAlpha c || isDigitCp c || c == 43 || c == 45 || c == 46

/-- Skip a netloc: after the leading `//`, everything up to the first `/`,
`?` or `#` belongs to the netloc. -/
def skipNetloc : PyStr → PyStr
  | [] => []
  | c :: t => if c = 47 ∨ c = 63 ∨ c = 35 then c :: t else skipNetloc t

/-- `urlparse(url).path`: strip a valid scheme, strip a `//`-netloc, cut the
fragment at the first `#`, then the query at the first `?`. -/
def urlparsePathOnly (url : PyStr) : PyStr :=
  let u1 :=
    match splitOnceSub (pys ":") url with
    | some (sch, rest) =>
      if sch != [] && isAsciiAlpha (url.headD 0) && sch.all (fun c => isSchemeChar c) then
        rest
      else url
    | none => url
  let u2 := if (pys "//").isPrefixOf u1 then skipNetloc (u1.drop 2) else u1
  let u3 := match splitOnceSub (pys "#") u2 with | some (a, _) => a | none => u2
  match splitOnceSub (pys "?") u3 with | some (a, _) => a | none => u3

/-! ### `os.path.realpath` over a symbolic-link environment -/

/-- The filesystem's symbolic links: absolute link path to target path. -/
abbrev SymlinkEnv := List (PyStr × PyStr)

def envLookup (env : SymlinkEnv) (p : PyStr) : Option PyStr :=
  (env.find? (fun e => decide (e.1 = p))).map (·.2)

def splitSlash (p : PyStr) : List PyStr := splitAllSub (pys "/") p

/-- Join components into an absolute path. -/
def joinAbs (comps : List PyStr) : PyStr := 47 :: List.intercalate (pys "/") comps

/-- Component-wise canonicalization: empty and `.` components vanish, `..`
pops the resolved prefix, and a component whose resolved path is a symlink
restarts with the target (fuel-bounded; the wrapper supplies enough fuel for
acyclic environments). -/
def resolveComps (env : SymlinkEnv) : Nat → List PyStr → List PyStr → List PyStr
  | 0, acc, rest => acc ++ rest
  | _ + 1, acc, [] => acc
  | fuel + 1, acc, c :: rest =>
    if c = [] ∨ c = pys "." then resolveComps env fuel acc rest
    else if c = pys ".." then resolveComps env fuel acc.dropLast rest
    else
      let acc' := acc ++ [c]
      match envLookup env (joinAbs acc') with
      | none => resolveComps env fuel acc' rest
      | some tgt =>
        if (pys "/").isPrefixOf tgt then
          resolveComps env fuel [] (splitSlash (tgt.drop 1) ++ rest)
        else resolveComps env fuel acc (splitSlash tgt ++ rest)

/-- `os.path.realpath(p)` for an absolute `p`: resolve symlinks and collapse
`.`/`..`; non-existing suffixes are kept verbatim (Python's non-strict mode). -/
def realpath (env : SymlinkEnv) (p : PyStr) : PyStr :=
  let fuel := (p.length + env.foldl (fun a e => a + e.2.length + 2) 0 + 8) * (env.length + 2)
  joinAbs (resolveComps env fuel [] (splitSlash (p.drop 1)))

/-- `os.path.join(a, b)` for POSIX paths. -/
def pyPathJoin (a b : PyStr) : PyStr :=
  if (pys "/").isPrefixOf b then b
  else if a = [] ∨ a.getLast? = some 47 then a ++ b
  else a ++ pys "/" ++ b

/-! ### Path resolver: `safe_join_resources` -/

/-- `safe_join_resources(path)`, parameterized by the symlink environment and
the resource-root directory (`RESOURCE_DIR`, absolute, no trailing slash). -/
def safe_join_resources (env : SymlinkEnv) (resourceDir : PyStr) (path : PyStr) :
    Option PyStr :=
  if path = [] then none
  else
    let cleanPath := unquote (urlparsePathOnly path)
    if containsSeq (pys "..") cleanPath ∨ (pys "//").isPrefixOf cleanPath then none
    else
      let c1 := if (pys "/").isPrefixOf cleanPath then cleanPath.drop 1 else cleanPath
      let c2 := if c1 = [] then pys "index.html" else c1
      let candidate := pyPathJoin resourceDir c2
      let candReal := realpath env candidate
      let resReal := realpath env resourceDir
      if resReal.isPrefixOf candReal then some candReal else none

/-- The claim's notion of a directory prefix: `p` is the root itself or lies
strictly below it (root plus a separator is a string prefix). -/
def isPathUnder (root p : PyStr) : Bool :=
  p == root || (root ++ pys "/").isPrefixOf p

/-! ### Response codec: `make_response`, `send_error` -/

/-- `str.encode("utf-8")` (total here; the call sites only encode ASCII
text, where surrogate errors cannot arise). -/
def utf8EncodeChar (cp : Nat) : Bytes :=
  if cp < 128 then [cp]
  else if cp < 2048 then [192 + cp / 64, 128 + cp % 64]
  else if cp < 65536 then [224 + cp / 4096, 128 + cp / 64 % 64, 128 + cp % 64]
  else [240 + cp / 262144, 128 + cp / 4096 % 64, 128 + cp / 64 % 64, 128 + cp % 64]

def utf8Encode (s : PyStr) : Bytes := s.flatMap utf8EncodeChar

/-- `dict.setdefault(k, v)`: insert only when the key is absent. -/
def dictSetdefault (d : PyDict) (k v : PyStr) : PyDict :=
  if (dictGet d k).isSome then d else d ++ [(k, v)]

/-- `dict.update(extra)`. -/
def dictUpdate (d extra : PyDict) : PyDict :=
  extra.foldl (fun acc kv => dictSet acc kv.1 kv.2) d

structure Response where
  status : Nat
  reason : PyStr
  headers : PyDict
  body : Bytes
deriving DecidableEq

def SERVER_NAME : PyStr := pys "Multi-threaded HTTP Server"

/-- `make_response(status_code, reason, headers, body)` up to serialization:
defaults `Date` (the wall-clock IMF date is a parameter), `Server` and
`Content-Length` are filled in when absent. -/
def make_response (dateStr : PyStr) (status : Nat) (reason : PyStr)
    (headers : PyDict) (body : Bytes) : Response :=
  let h1 := dictSetdefault headers (pys "Date") dateStr
  let h2 := dictSetdefault h1 (pys "Server") SERVER_NAME
  let h3 := dictSetdefault h2 (pys "Content-Length") (natToDec body.length)
  ⟨status, reason, h3, body⟩

/-- Serialize a response: status line, header lines in dict order, blank
line, body. -/
def respBytes (r : Response) : Bytes :=
  utf8Encode (pys "HTTP/1.1 " ++ natToDec r.status ++ pys " " ++ r.reason ++ pys "\r\n"
    ++ r.headers.foldr (fun kv acc => kv.1 ++ pys ": " ++ kv.2 ++ pys "\r\n" ++ acc) []
    ++ pys "\r\n") ++ r.body

/-- The default error body `<html><body><h1>{code} {reason}</h1></body></html>`. -/
def errorBody (status : Nat) (reason : PyStr) : PyStr :=
  pys "<html><body><h1>" ++ natToDec status ++ pys " " ++ reason ++ pys "</h1></body></html>"

/-- `send_error(sock, status, reason, extra_headers)` as the response it
writes. -/
def send_error (dateStr : PyStr) (status : Nat) (reason : PyStr)
    (extraHeaders : PyDict) : Response :=
  make_response dateStr status reason
    (dictUpdate [(pys "Content-Type", pys "text/html; charset=utf-8")] extraHeaders)
    (utf8Encode (errorBody status reason))

/-! ### Worker pool admission and the accept loop's 503 -/

def CONN_QUEUE_MAX : Nat := 200

/-- `ThreadPool.submit`: `put_nowait` succeeds exactly when the bounded queue
has room; on `queue.Full` it returns false and the queue is unchanged. -/
def poolSubmit (queue : List Nat) (item : Nat) : Bool × List Nat :=
  if queue.length < CONN_QUEUE_MAX then (true, queue ++ [item]) else (false, queue)

/-- The response the accept loop writes when `submit` returns false
(`start_server`, lines 403-407). -/
def reject503 (dateStr : PyStr) : Response :=
  make_response dateStr 503 (pys "Service Unavailable")
    [(pys "Retry-After", pys "5"),
     (pys "Content-Type", pys "text/html; charset=utf-8"),
     (pys "Connection", pys "close")]
    (utf8Encode (pys "<html><body><h1>503 Service Unavailable</h1></body></html>"))

/-! ### Filesystem model and `os.path` helpers -/

structure FileSys where
  files : List (PyStr × Bytes)
  dirs : List PyStr
deriving DecidableEq

def fsFile (fs : FileSys) (p : PyStr) : Option Bytes :=
  (fs.files.find? (fun e => decide (e.1 = p))).map (·.2)

def fsIsFile (fs : FileSys) (p : PyStr) : Bool := (fsFile fs p).isSome

def fsExists (fs : FileSys) (p : PyStr) : Bool := fsIsFile fs p || p ∈ fs.dirs

def fsSize (fs : FileSys) (p : PyStr) : Nat := ((fsFile fs p).getD []).length

def pyBasename (p : PyStr) : PyStr := ((splitAllSub (pys "/") p).getLast?).getD []

/-- The extension part of `os.path.splitext`: from the last dot of the
basename, provided some non-dot character precedes that dot there. -/
def pySplitextExt (p : PyStr) : PyStr :=
  let base := pyBasename p
  match ((List.range base.length).filter (fun i => base.getD i 0 = 46)).getLast? with
  | none => []
  | some j => if (List.range j).any (fun k => base.getD k 0 ≠ 46) then base.drop j else []

/-! ### GET responder: `handle_get` -/

def FILE_READ_CHUNK : Nat := 8192

def chunksOfAux : Nat → Bytes → List Bytes
  | 0, _ => []
  | _ + 1, [] => []
  | fuel + 1, bs => bs.take FILE_READ_CHUNK :: chunksOfAux fuel (bs.drop FILE_READ_CHUNK)

/-- File bytes as the fixed-size chunks the binary branch streams. -/
def chunksOf (bs : Bytes) : List Bytes := chunksOfAux (bs.length + 1) bs

def SUPPORTED_BINARY : List PyStr := [pys ".txt", pys ".png", pys ".jpg", pys ".jpeg"]

structure GetResult where
  resp : Response
  chunks : List Bytes
deriving DecidableEq

def connectionValue (keepAlive : Bool) : PyStr :=
  if keepAlive then pys "keep-alive" else pys "close"

/-- `handle_get(sock, thread_name, path, headers, keep_alive)`: resolve, check
existence and regularity, then dispatch on the lowercased extension. -/
def handle_get (env : SymlinkEnv) (resourceDir : PyStr) (fs : FileSys)
    (dateStr : PyStr) (path : PyStr) (keepAlive : Bool) : GetResult :=
  match safe_join_resources env resourceDir path with
  | none => ⟨send_error dateStr 404 (pys "Not Found") [], []⟩
  | some fp =>
    if ¬ fsExists fs fp ∨ ¬ fsIsFile fs fp then
      ⟨send_error dateStr 404 (pys "Not Found") [], []⟩
    else
      let ext := pyLower (pySplitextExt fp)
      if ext = pys ".html" then
        let content := (fsFile fs fp).getD []
        ⟨make_response dateStr 200 (pys "OK")
          [(pys "Content-Type", pys "text/html; charset=utf-8"),
           (pys "Content-Length", natToDec content.length),
           (pys "Connection", connectionValue keepAlive),
           (pys "Keep-Alive", pys "timeout=30, max=100")] content, []⟩
      else if ext ∈ SUPPORTED_BINARY then
        let size := fsSize fs fp
        let filename := pyBasename fp
        ⟨make_response dateStr 200 (pys "OK")
          [(pys "Content-Type", pys "application/octet-stream"),
           (pys "Content-Length", natToDec size),
           (pys "Content-Disposition",
             pys "attachment; filename=\"" ++ filename ++ pys "\""),
           (pys "Connection", connectionValue keepAlive)] [],
         chunksOf ((fsFile fs fp).getD [])⟩
      else ⟨send_error dateStr 415 (pys "Unsupported Media Type") [], []⟩

/-! ### JSON values (Python `json`)

Python parses fraction/exponent numerals, `NaN` and `Infinity` into IEEE
floats; those carriers are kept syntactically here (the numeral, not a
float), and the round-trip claim is stated for float-free values. -/

/-- A float-producing numeral, recorded as written. -/
structure FloatLit where
  neg : Bool
  intDigits : List Nat
  fracDigits : List Nat
  expNeg : Bool
  expDigits : List Nat
deriving DecidableEq

inductive Json where
  | null
  | bool (b : Bool)
  | num (n : Int)
  | fnum (f : FloatLit)
  | nan
  | inf (neg : Bool)
  | str (s : PyStr)
  | arr (elems : List Json)
  | obj (members : List (PyStr × Json))

/-- `dict` assignment for JSON object members. -/
def jsonDictSet : List (PyStr × Json) → PyStr → Json → List (PyStr × Json)
  | [], k, v => [(k, v)]
  | (k', v') :: t, k, v =>
    if k' = k then (k', v) :: t else (k', v') :: jsonDictSet t k v

/-- Fold parsed members through `dict` assignment (`dict(pairs)`). -/
def jsonDictOf (pairs : List (PyStr × Json)) : List (PyStr × Json) :=
  pairs.foldl (fun d kv => jsonDictSet d kv.1 kv.2) []

/-! ### `json.dumps` (ensure_ascii, `indent=2` and the compact default) -/

def jsonHexDigit (d : Nat) : Nat := if d < 10 then 48 + d else 87 + d

def hex4Of (v : Nat) : List Nat :=
  [jsonHexDigit (v / 4096 % 16), jsonHexDigit (v / 256 % 16),
   jsonHexDigit (v / 16 % 16), jsonHexDigit (v % 16)]

/-- Escape one code point as `json.dumps` with `ensure_ascii=True` does:
printable ASCII passes through, the short escapes cover the usual control
characters, everything else becomes `\uXXXX` (a surrogate pair above
U+FFFF). -/
def escCp (cp : Nat) : List Nat :=
  if cp = 34 then [92, 34]
  else if cp = 92 then [92, 92]
  else if cp = 10 then [92, 110]
  else if cp = 13 then [92, 114]
  else if cp = 9 then [92, 116]
  else if cp = 8 then [92, 98]
  else if cp = 12 then [92, 102]
  else if 32 ≤ cp ∧ cp ≤ 126 then [cp]
  else if cp < 65536 then [92, 117] ++ hex4Of cp
  else [92, 117] ++ hex4Of (55296 + (cp - 65536) / 1024)
    ++ [92, 117] ++ hex4Of (56320 + (cp - 65536) % 1024)

def dumpStr (s : PyStr) : List Nat := 34 :: (s.flatMap escCp ++ [34])

/-- Rendering of a float numeral: the recorded digits (Python would print
the IEEE `repr`; never reached in the float-free round-trip claim). -/
def dumpFloatLit (f : FloatLit) : List Nat :=
  (if f.neg then [45] else []) ++ f.intDigits
    ++ (if f.fracDigits = [] then [] else 46 :: f.fracDigits)
    ++ (if f.expDigits = [] then [] else 101 :: (if f.expNeg then [45] else []) ++ f.expDigits)

def dumpScalar : Json → List Nat
  | .null => pys "null"
  | .bool true => pys "true"
  | .bool false => pys "false"
  | .num n => intToDec n
  | .fnum f => dumpFloatLit f
  | .nan => pys "NaN"
  | .inf false => pys "Infinity"
  | .inf true => pys "-Infinity"
  | .str s => dumpStr s
  | .arr _ => []
  | .obj _ => []

/-- `'\n'` plus the two-space indent for nesting depth `d`. -/
def nlIndent (d : Nat) : List Nat := 10 :: List.replicate (2 * d) 32

mutual
/-- `json.dumps(v, indent=2)` at nesting depth `d`: item separator `','` +
newline-indent, key separator `': '`; empty containers print bare. -/
def dumpVal (d : Nat) : Json → List Nat
  | .arr [] => [91, 93]
  | .arr (e :: es) =>
    91 :: (nlIndent (d + 1) ++ dumpVal (d + 1) e ++ dumpElems (d + 1) es
      ++ nlIndent d ++ [93])
  | .obj [] => [123, 125]
  | .obj (m :: ms) =>
    123 :: (nlIndent (d + 1) ++ dumpStr m.1 ++ [58, 32] ++ dumpVal (d + 1) m.2
      ++ dumpMembers (d + 1) ms ++ nlIndent d ++ [125])
  | v => dumpScalar v

def dumpElems (d : Nat) : List Json → List Nat
  | [] => []
  | e :: es => 44 :: (nlIndent d ++ dumpVal d e ++ dumpElems d es)

def dumpMembers (d : Nat) : List (PyStr × Json) → List Nat
  | [] => []
  | m :: ms =>
    44 :: (nlIndent d ++ dumpStr m.1 ++ [58, 32] ++ dumpVal d m.2
      ++ dumpMembers d ms)
end

/-- `json.dump(v, f, indent=2)`: the text written to the upload file. -/
def dumpIndent2 (v : Json) : PyStr := dumpVal 0 v

mutual
/-- `json.dumps(v)` with the default separators `', '` and `': '`. -/
def dumpCompactVal : Json → List Nat
  | .arr [] => [91, 93]
  | .arr (e :: es) => 91 :: (dumpCompactVal e ++ dumpCompactElems es ++ [93])
  | .obj [] => [123, 125]
  | .obj (m :: ms) =>
    123 :: (dumpStr m.1 ++ [58, 32] ++ dumpCompactVal m.2
      ++ dumpCompactMembers ms ++ [125])
  | v => dumpScalar v

def dumpCompactElems : List Json → List Nat
  | [] => []
  | e :: es => 44 :: (32 :: (dumpCompactVal e ++ dumpCompactElems es))

def dumpCompactMembers : List (PyStr × Json) → List Nat
  | [] => []
  | m :: ms =>
    44 :: (32 :: (dumpStr m.1 ++ [58, 32] ++ dumpCompactVal m.2 ++ dumpCompactMembers ms))
end

/-! ### `json.loads` -/

def isJsonWs (c : Nat) : Bool := c == 32 || c == 9 || c == 10 || c == 13

def skipJsonWs : List Nat → List Nat
  | [] => []
  | c :: t => if isJsonWs c then skipJsonWs t else c :: t

def jsonUnescape (e : Nat) : Option Nat :=
  if e = 34 then some 34
  else if e = 92 then some 92
  else if e = 47 then some 47
  else if e = 98 then some 8
  else if e = 102 then some 12
  else if e = 110 then some 10
  else if e = 114 then some 13
  else if e = 116 then some 9
  else none

def readHex4 : List Nat → Option (Nat × List Nat)
  | a :: b :: c :: d :: r =>
    match hexDigitVal a, hexDigitVal b, hexDigitVal c, hexDigitVal d with
    | some x, some y, some z, some w => some (((x * 16 + y) * 16 + z) * 16 + w, r)
    | _, _, _, _ => none
  | _ => none

/-- Outcome of the scanner's lookahead after a decoded high surrogate. -/
inductive SurrLook where
  | pair (u2 : Nat) (r5 : List Nat)
  | keep
  | err
deriving DecidableEq

/-- The lookahead itself: a following `\uXXXX` whose value is a low
surrogate pairs up; a following `\u` with malformed hex is an error (the
`_decode_uXXXX` call raises); anything else keeps the lone surrogate. -/
def surrPairLook (stream : List Nat) : SurrLook :=
  match stream with
  | a :: b :: r4 =>
    if a = 92 ∧ b = 117 then
      match readHex4 r4 with
      | none => .err
      | some (u2, r5) => if 56320 ≤ u2 ∧ u2 ≤ 57343 then .pair u2 r5 else .keep
    else .keep
  | _ => .keep

/-- The string scanner after the opening quote (`py_scanstring`, strict):
raw control characters fail, `\uXXXX` escapes combine an adjacent
high/low surrogate pair into one code point, lone surrogates are kept.
(Head tests are `if`s rather than literal patterns so proofs can reduce the
scanner on abstract code points.) -/
def readStrAux : Nat → PyStr → List Nat → Option (PyStr × List Nat)
  | 0, _, _ => none
  | fuel + 1, acc, cs =>
    match cs with
    | [] => none
    | c :: r =>
      if c = 34 then some (acc.reverse, r)
      else if c = 92 then
        match r with
        | [] => none
        | e :: r2 =>
          if e = 117 then
            match readHex4 r2 with
            | none => none
            | some (u1, r3) =>
              if 55296 ≤ u1 ∧ u1 ≤ 56319 then
                match surrPairLook r3 with
                | .err => none
                | .pair u2 r5 =>
                  readStrAux fuel ((65536 + (u1 - 55296) * 1024 + (u2 - 56320)) :: acc) r5
                | .keep => readStrAux fuel (u1 :: acc) r3
              else readStrAux fuel (u1 :: acc) r3
          else
            match jsonUnescape e with
            | some c2 => readStrAux fuel (c2 :: acc) r2
            | none => none
      else if c < 32 then none
      else readStrAux fuel (c :: acc) r

def takeDigits : List Nat → List Nat × List Nat
  | [] => ([], [])
  | c :: t =>
    if isDigitCp c then
      let (ds, r) := takeDigits t
      (c :: ds, r)
    else ([], c :: t)

def digitsToNat (ds : List Nat) : Nat := ds.foldl (fun a c => a * 10 + (c - 48)) 0

/-- The fraction part `(\.\d+)?` starting at `restI`. -/
def readFracPart (restI : List Nat) : List Nat × List Nat :=
  if restI.headD 0 = 46 then
    match takeDigits restI.tail with
    | ([], _) => ([], restI)
    | (ds, r2) => (ds, r2)
  else ([], restI)

/-- The exponent part `([eE][+-]?\d+)?` starting at `restF`. -/
def readExpPart (restF : List Nat) : Bool × List Nat × List Nat :=
  if restF.headD 0 = 101 ∨ restF.headD 0 = 69 then
    let rr := restF.tail
    let sgnNeg := rr.headD 0 = 45
    let rr2 := if rr.headD 0 = 43 ∨ rr.headD 0 = 45 then rr.tail else rr
    match takeDigits rr2 with
    | ([], _) => (false, [], restF)
    | (ds, q) => (sgnNeg, ds, q)
  else (false, [], restF)

/-- The number token, per the scanner's regex
`-?(0|[1-9]\d*)(\.\d+)?([eE][+-]?\d+)?`: a plain integer numeral yields an
int, any fraction or exponent yields a float numeral. -/
def readNumber (cs : List Nat) : Option (Json × List Nat) :=
  let neg := cs.headD 0 = 45
  let cs1 := if neg then cs.tail else cs
  match cs1 with
  | c :: r =>
    if c = 48 ∨ (isDigitCp c ∧ c ≠ 48) then
      let (intDs, restI) :=
        if c = 48 then ([48], r)
        else
          let (ds, r2) := takeDigits r
          (c :: ds, r2)
      let (fracDs, restF) := readFracPart restI
      let (expNeg, expDs, restE) := readExpPart restF
      if fracDs = [] ∧ expDs = [] then
        some (.num (if neg then -(digitsToNat intDs : Int) else (digitsToNat intDs : Int)),
          restI)
      else some (.fnum ⟨neg, intDs, fracDs, expNeg, expDs⟩, restE)
    else none
  | [] => none

mutual
/-- One JSON value (`scan_once` plus the callers' whitespace skipping).
Head tests are `if`s on the first code point, so proofs reduce on abstract
heads. -/
def parseJsonVal : Nat → List Nat → Option (Json × List Nat)
  | 0, _ => none
  | fuel + 1, cs =>
    let cs' := skipJsonWs cs
    if (pys "null").isPrefixOf cs' then some (.null, cs'.drop 4)
    else if (pys "true").isPrefixOf cs' then some (.bool true, cs'.drop 4)
    else if (pys "false").isPrefixOf cs' then some (.bool false, cs'.drop 5)
    else
      match cs' with
      | [] => none
      | c :: r =>
        if c = 34 then (readStrAux fuel [] r).map (fun p => (.str p.1, p.2))
        else if c = 91 then
          let r1 := skipJsonWs r
          if r1.headD 0 = 93 then some (.arr [], r1.tail)
          else (parseJsonElems fuel r1).map (fun p => (.arr p.1, p.2))
        else if c = 123 then
          let r1 := skipJsonWs r
          if r1.headD 0 = 125 then some (.obj [], r1.tail)
          else (parseJsonMembers fuel r1).map (fun p => (.obj (jsonDictOf p.1), p.2))
        else
          match readNumber cs' with
          | some x => some x
          | none =>
            if (pys "NaN").isPrefixOf cs' then some (.nan, cs'.drop 3)
            else if (pys "Infinity").isPrefixOf cs' then some (.inf false, cs'.drop 8)
            else if (pys "-Infinity").isPrefixOf cs' then some (.inf true, cs'.drop 9)
            else none

/-- One-or-more comma-separated array elements up to `]`. -/
def parseJsonElems : Nat → List Nat → Option (List Json × List Nat)
  | 0, _ => none
  | fuel + 1, cs =>
    match parseJsonVal fuel cs with
    | none => none
    | some (v, r) =>
      let r1 := skipJsonWs r
      if r1.headD 0 = 93 then some ([v], r1.tail)
      else if r1.headD 0 = 44 then
        (parseJsonElems fuel r1.tail).map (fun p => (v :: p.1, p.2))
      else none

/-- One-or-more `"key": value` members up to the closing brace. -/
def parseJsonMembers : Nat → List Nat → Option (List (PyStr × Json) × List Nat)
  | 0, _ => none
  | fuel + 1, cs =>
    let c1 := skipJsonWs cs
    if c1.headD 0 = 34 then
      match readStrAux fuel [] c1.tail with
      | none => none
      | some (k, r1) =>
        let r2 := skipJsonWs r1
        if r2.headD 0 = 58 then
          match parseJsonVal fuel r2.tail with
          | none => none
          | some (v, r3) =>
            let r4 := skipJsonWs r3
            if r4.headD 0 = 125 then some ([(k, v)], r4.tail)
            else if r4.headD 0 = 44 then
              (parseJsonMembers fuel r4.tail).map (fun p => ((k, v) :: p.1, p.2))
            else none
        else none
    else none
end

/-- `json.loads(s)`: one value, then only trailing whitespace. -/
def jsonLoads (s : PyStr) : Option Json :=
  match parseJsonVal (2 * s.length + 8) s with
  | some (v, r) => if skipJsonWs r = [] then some v else none
  | none => none

/-- Code points that may legally follow a complete number token in the
pretty-printer's output: end of input, comma, newline, or a closing
bracket/brace. -/
def numDelim : List Nat → Bool
  | [] => true
  | c :: _ => c == 44 || c == 10 || c == 93 || c == 125

mutual
/-- Fuel sufficient for `parseJsonVal` on this value's pretty-printed form,
mirroring the parser's call tree (strings also feed the string scanner's
fuel). -/
def reqVal : Json → Nat
  | .str s => s.length + 2
  | .arr [] => 1
  | .arr (e :: es) => 1 + reqElems e es
  | .obj [] => 1
  | .obj (m :: ms) => 1 + reqMembers m ms
  | _ => 1
termination_by v => sizeOf v

def reqElems (e : Json) : List Json → Nat
  | [] => 1 + reqVal e
  | x :: xs => 1 + max (reqVal e) (reqElems x xs)
termination_by es => sizeOf e + sizeOf es

def reqMembers : PyStr × Json → List (PyStr × Json) → Nat
  | (k, v), [] => 1 + max (k.length + 1) (reqVal v)
  | (k, v), x :: xs => 1 + max (k.length + 1) (max (reqVal v) (reqMembers x xs))
termination_by m ms => sizeOf m + sizeOf ms
end

/-! ### Well-formedness for the round-trip -/

def isHiSur (c : Nat) : Bool := 55296 ≤ c && c ≤ 56319
def isLoSur (c : Nat) : Bool := 56320 ≤ c && c ≤ 57343

/-- Code points of a Python string reachable from a decoded request body:
valid scalar range, and never a high surrogate immediately followed by a low
one (`json.loads` would have combined the pair; UTF-8 decoding cannot emit
adjacent surrogate halves as separate code points). -/
def wfStr : PyStr → Bool
  | [] => true
  | c :: rest =>
    c < 1114112 &&
      (match rest with
       | d :: _ => !(isHiSur c && isLoSur d)
       | [] => true) &&
      wfStr rest

def keysNodup : List (PyStr × Json) → Bool
  | [] => true
  | (k, _) :: ms => ms.all (fun kv => kv.1 != k) && keysNodup ms

mutual
/-- Values within scope of the round-trip claim: no float carriers, strings
well-formed, object keys distinct. -/
def Json.wf : Json → Bool
  | .null => true
  | .bool _ => true
  | .num _ => true
  | .fnum _ => false
  | .nan => false
  | .inf _ => false
  | .str s => wfStr s
  | .arr es => jsonWfList es
  | .obj ms => keysNodup ms && jsonWfMembers ms

def jsonWfList : List Json → Bool
  | [] => true
  | e :: es => e.wf && jsonWfList es

def jsonWfMembers : List (PyStr × Json) → Bool
  | [] => true
  | (k, v) :: ms => wfStr k && v.wf && jsonWfMembers ms
end

/-! ### POST responder: `handle_post` -/

/-- The wall-clock instant `datetime.datetime.now()` as its formatted
fields. -/
structure Timestamp where
  y : Nat
  mo : Nat
  d : Nat
  h : Nat
  mi : Nat
  s : Nat
deriving DecidableEq

def padToWidth (w : Nat) (n : Nat) : PyStr :=
  let ds := natToDec n
  List.replicate (w - ds.length) 48 ++ ds

/-- `now.strftime("%Y%m%d_%H%M%S")`. -/
def fmtTimestamp (t : Timestamp) : PyStr :=
  padToWidth 4 t.y ++ padToWidth 2 t.mo ++ padToWidth 2 t.d ++ [95]
    ++ padToWidth 2 t.h ++ padToWidth 2 t.mi ++ padToWidth 2 t.s

/-- `string.ascii_lowercase + string.digits`. -/
def RAND_ALPHABET : PyStr := pys "abcdefghijklmnopqrstuvwxyz0123456789"

/-- `random.choices(RAND_ALPHABET, k=4)` given the picked indices. -/
def randChars (picks : List Nat) : PyStr := picks.map (fun i => RAND_ALPHABET.getD i 0)

structure PostOutcome where
  resp : Response
  written : Option (PyStr × PyStr)
deriving DecidableEq

/-- The upload filename `upload_<YYYYMMDD_HHMMSS>_<xxxx>.json`. -/
def uploadFilename (now : Timestamp) (picks : List Nat) : PyStr :=
  pys "upload_" ++ fmtTimestamp now ++ [95] ++ randChars picks ++ pys ".json"

/-- `handle_post(sock, thread_name, path, headers, body_bytes, keep_alive)`:
non-JSON media type is 415; UTF-8 or JSON failure is 400; otherwise write
the re-encoded value and answer 201.  `written` records the created file
(name and text), `none` when nothing is written. -/
def handle_post (dateStr : PyStr) (now : Timestamp) (picks : List Nat)
    (headers : PyDict) (body : Bytes) (keepAlive : Bool) : PostOutcome :=
  let ctRaw := dictGetD headers (pys "Content-Type") []
  let ct := pystrip (match splitOnceSub (pys ";") ctRaw with
    | some (a, _) => a
    | none => ctRaw)
  if ct ≠ pys "application/json" then
    ⟨send_error dateStr 415 (pys "Unsupported Media Type") [], none⟩
  else
    match utf8Decode body with
    | none => ⟨send_error dateStr 400 (pys "Bad Request") [], none⟩
    | some txt =>
      match jsonLoads txt with
      | none => ⟨send_error dateStr 400 (pys "Bad Request") [], none⟩
      | some data =>
        let filename := uploadFilename now picks
        let fileText := dumpIndent2 data
        let respObj : Json := .obj
          [(pys "status", .str (pys "success")),
           (pys "message", .str (pys "File created successfully")),
           (pys "filepath", .str (pys "/uploads/" ++ filename))]
        let bodyOut := utf8Encode (dumpCompactVal respObj)
        ⟨make_response dateStr 201 (pys "Created")
          [(pys "Content-Type", pys "application/json"),
           (pys "Content-Length", natToDec bodyOut.length),
           (pys "Connection", connectionValue keepAlive)] bodyOut,
         some (filename, fileText)⟩

/-! ### The connection handler's POST body completion (lines 270-284) -/

inductive BodyStep where
  | reject400
  | proceed (body : Bytes)
deriving DecidableEq

/-- The `while remaining > 0` receive loop; `stream` holds the bytes the
peer still has in flight, each `recv` hands over at most
`min(4096, remaining)` of them, an empty read stops the loop. -/
def recvLoop : Nat → Bytes → Int → Bytes → Bytes
  | 0, body, _, _ => body
  | fuel + 1, body, remaining, stream =>
    if remaining ≤ 0 then body
    else
      let chunk := stream.take (min 4096 remaining.toNat)
      if chunk = [] then body
      else recvLoop fuel (body ++ chunk) (remaining - chunk.length) (stream.drop chunk.length)

/-- The POST arm of `handle_client_connection` before calling `handle_post`:
absent (or empty, hence falsy) `Content-Length` skips the completion read
and keeps the body prefix; a non-integer value is 400; otherwise the
receive loop extends the prefix. -/
def postBodyStep (headers : PyDict) (bodyPre : Bytes) (stream : Bytes) : BodyStep :=
  match dictGet headers (pys "Content-Length") with
  | none => .proceed bodyPre
  | some cl =>
    if cl = [] then .proceed bodyPre
    else
      match pyIntParse cl with
      | none => .reject400
      | some expected =>
        .proceed (recvLoop (bodyPre.length + stream.length + 2) bodyPre
          (expected - bodyPre.length) stream)

/-- POST dispatch: body completion then the responder (400 on a bad
`Content-Length`). -/
def postDispatch (dateStr : PyStr) (now : Timestamp) (picks : List Nat)
    (headers : PyDict) (bodyPre stream : Bytes) (keepAlive : Bool) : PostOutcome :=
  match postBodyStep headers bodyPre stream with
  | .reject400 => ⟨send_error dateStr 400 (pys "Bad Request") [], none⟩
  | .proceed body => handle_post dateStr now picks headers body keepAlive

/-! ### Claim-side helper: the last header occurrence in the raw lines -/

/-- The value the spec's "last occurrence wins" denotes: scanning the raw
header lines from the end, the first line whose stripped name equals `name`
exactly gives the stripped value. -/
def lastHeaderValue (lines : List PyStr) (name : PyStr) : Option PyStr :=
  lines.reverse.findSome? (fun hdr =>
    match splitOnceSub (pys ":") hdr with
    | some (k, v) => if pystrip k = name then some (pystrip v) else none
    | none => none)

/-! ## Theorems -/

/-- A lookup that already succeeds is unaffected by `setdefault`. -/
theorem dictGet_setdefault_found (d : PyDict) (k v n : PyStr)
    (h : (dictGet d n).isSome) : dictGet (dictSetdefault d k v) n = dictGet d n := by
  unfold dictSetdefault
  split
  · rfl
  · unfold dictGet at h ⊢
    rw [List.find?_append]
    rcases ho : List.find? (fun p => decide (p.1 = n)) d with _ | x
    · rw [ho] at h; simp at h
    · simp [Option.or, ho]

/-- A lookup that succeeds on the caller's headers is unaffected by
`make_response`'s defaulting of `Date`, `Server` and `Content-Length`. -/
theorem dictGet_make_response (dateStr : PyStr) (status : Nat) (reason : PyStr)
    (hdrs : PyDict) (body : Bytes) (n : PyStr) (h : (dictGet hdrs n).isSome) :
    dictGet (make_response dateStr status reason hdrs body).headers n = dictGet hdrs n := by
  have h1 := dictGet_setdefault_found hdrs (pys "Date") dateStr n h
  have h1s : (dictGet (dictSetdefault hdrs (pys "Date") dateStr) n).isSome := by
    rw [h1]; exact h
  have h2 := dictGet_setdefault_found _ (pys "Server") SERVER_NAME n h1s
  have h2s : (dictGet (dictSetdefault (dictSetdefault hdrs (pys "Date") dateStr)
      (pys "Server") SERVER_NAME) n).isSome := by
    rw [h2]; exact h1s
  have h3 := dictGet_setdefault_found _ (pys "Content-Length")
    (natToDec body.length) n h2s
  calc dictGet (make_response dateStr status reason hdrs body).headers n
      = dictGet (dictSetdefault (dictSetdefault hdrs (pys "Date") dateStr)
          (pys "Server") SERVER_NAME) n := h3
    _ = dictGet (dictSetdefault hdrs (pys "Date") dateStr) n := h2
    _ = dictGet hdrs n := h1

/-- **C1.** The claim's prefix invariant fails on the code: `safe_join_resources`
compares canonical paths with a bare string `startswith`, so a symbolic link
`resources/evil → /srv/resources2/secret` — whose target merely *starts
with* the root as a string — is accepted, although the canonical result is
not under the resource root directory.  (The canonicalization is shown to be
a fixed point, so the returned path is its own canonical form.) -/
theorem C1_safe_join_escapes_root_via_symlink :
    safe_join_resources [(pys "/srv/resources/evil", pys "/srv/resources2/secret")]
        (pys "/srv/resources") (pys "/evil") = some (pys "/srv/resources2/secret") ∧
    realpath [(pys "/srv/resources/evil", pys "/srv/resources2/secret")]
        (pys "/srv/resources") = pys "/srv/resources" ∧
    realpath [(pys "/srv/resources/evil", pys "/srv/resources2/secret")]
        (pys "/srv/resources2/secret") = pys "/srv/resources2/secret" ∧
    isPathUnder (pys "/srv/resources") (pys "/srv/resources2/secret") = false := by
  exact ⟨by decide, by decide, by decide, by decide⟩

/-- **C4.** The keep-alive decision: under `HTTP/1.1` the connection stays
alive unless the `Connection` value equals `close` case-insensitively; under
any other version it stays alive exactly when the value equals `keep-alive`
case-insensitively. -/
theorem C4_keep_alive_decision (version : PyStr) (headers : PyDict) :
    keepAliveOf version headers = true ↔
      (if version = pys "HTTP/1.1" then
        ¬ ciEq (dictGetD headers (pys "Connection") []) (pys "close")
      else ciEq (dictGetD headers (pys "Connection") []) (pys "keep-alive")) := by
  have hclose : pyLower (pys "close") = pys "close" := by decide
  have hka : pyLower (pys "keep-alive") = pys "keep-alive" := by decide
  by_cases h : version = pys "HTTP/1.1" <;>
    simp [keepAliveOf, ciEq, h, hclose, hka, bne_iff_ne]

/-- **C8.** `submit` succeeds exactly when the bounded queue (capacity 200)
has room, appending the item, and leaves the queue unchanged when full; the
503 response the accept loop then writes carries `Retry-After: 5`,
`Content-Type: text/html; charset=utf-8`, `Connection: close` and the short
HTML body. -/
theorem C8_submit_and_reject503 :
    (∀ (q : List Nat) (item : Nat),
      ((poolSubmit q item).1 = true ↔ q.length < CONN_QUEUE_MAX) ∧
      ((poolSubmit q item).1 = true → (poolSubmit q item).2 = q ++ [item]) ∧
      ((poolSubmit q item).1 = false ↔ CONN_QUEUE_MAX ≤ q.length) ∧
      ((poolSubmit q item).1 = false → (poolSubmit q item).2 = q)) ∧
    (∀ dateStr : PyStr,
      (reject503 dateStr).status = 503 ∧
      (reject503 dateStr).reason = pys "Service Unavailable" ∧
      dictGet (reject503 dateStr).headers (pys "Retry-After") = some (pys "5") ∧
      dictGet (reject503 dateStr).headers (pys "Content-Type") =
        some (pys "text/html; charset=utf-8") ∧
      dictGet (reject503 dateStr).headers (pys "Connection") = some (pys "close") ∧
      (reject503 dateStr).body =
        utf8Encode (pys "<html><body><h1>503 Service Unavailable</h1></body></html>")) := by
  constructor
  · intro q item
    by_cases h : q.length < CONN_QUEUE_MAX
    · simp [poolSubmit, h]; try omega
    · simp [poolSubmit, h]; try omega
  · intro dateStr
    refine ⟨rfl, rfl, rfl, rfl, rfl, rfl⟩

/-- Closed instance for C8: a queue of 200 pending connections rejects the
next submission and leaves the queue untouched; a shorter queue accepts. -/
theorem C8_submit_and_reject503_witness :
    (poolSubmit (List.replicate 200 7) 9).1 = false ∧
    (poolSubmit (List.replicate 200 7) 9).2 = List.replicate 200 7 ∧
    (poolSubmit [3] 9).1 = true ∧ (poolSubmit [3] 9).2 = [3, 9] ∧
    (reject503 (pys "D")).status = 503 := by
  refine ⟨?_, ?_, ?_, ?_, ?_⟩
  · exact ((C8_submit_and_reject503.1 (List.replicate 200 7) 9).2.2.1).mpr (by decide)
  · exact (C8_submit_and_reject503.1 (List.replicate 200 7) 9).2.2.2 (by decide)
  · exact ((C8_submit_and_reject503.1 [3] 9).1).mpr (by decide)
  · exact (C8_submit_and_reject503.1 [3] 9).2.1 (by decide)
  · exact (C8_submit_and_reject503.2 (pys "D")).1

/-- **C9.** A POST request without a `Content-Length` header is not rejected:
the handler skips the body-completion read and calls the upload responder on
the body prefix from the initial read, so a JSON body already inside that
prefix is accepted with 201. -/
theorem C9_post_without_content_length :
    (∀ (dateStr : PyStr) (now : Timestamp) (picks : List Nat) (headers : PyDict)
        (bodyPre stream : Bytes) (ka : Bool),
      dictGet headers (pys "Content-Length") = none →
      postBodyStep headers bodyPre stream = .proceed bodyPre ∧
      postDispatch dateStr now picks headers bodyPre stream ka =
        handle_post dateStr now picks headers bodyPre ka) ∧
    (∀ (dateStr : PyStr) (now : Timestamp) (picks : List Nat),
      ∃ req, parse_http_request
          (pys "POST /up HTTP/1.1\r\nHost: h\r\nContent-Type: application/json\r\n\r\n[1, 2]")
          = some req ∧
        dictGet req.headers (pys "Content-Length") = none ∧
        (postDispatch dateStr now picks req.headers req.body [] true).resp.status = 201) := by
  constructor
  · intro dateStr now picks headers bodyPre stream ka h
    refine ⟨?_, ?_⟩ <;> simp [postBodyStep, postDispatch, h]
  · intro dateStr now picks
    refine ⟨_, rfl, by decide, ?_⟩
    rfl

/-- **C3.** The host validator: missing or empty header is 400; a colon-bearing
value with a non-integer port part is 400; a value without a colon is matched
with the server port; the acceptable set is exactly `{bind_host}:{bind_port}`
plus — precisely when the bind host is `127.0.0.1`, `localhost` or
`0.0.0.0` — `localhost:{port}` and `127.0.0.1:{port}`; the normalized
`host:port` is accepted iff it lies in the set, rejected with 403 iff not. -/
theorem C3_host_validator (sh : PyStr) (sp : Int) :
    (valid_host_header none sh sp = .bad 400) ∧
    (valid_host_header (some []) sh sp = .bad 400) ∧
    (∀ hv host portStr, hv ≠ [] →
      splitOnceSub (pys ":") (pystrip hv) = some (host, portStr) →
      pyIntParse portStr = none →
      valid_host_header (some hv) sh sp = .bad 400) ∧
    (∀ hv host portStr port, hv ≠ [] →
      splitOnceSub (pys ":") (pystrip hv) = some (host, portStr) →
      pyIntParse portStr = some port →
      valid_host_header (some hv) sh sp = hostCheck host port sh sp) ∧
    (∀ hv, hv ≠ [] → splitOnceSub (pys ":") (pystrip hv) = none →
      valid_host_header (some hv) sh sp = hostCheck (pystrip hv) sp sh sp) ∧
    (∀ s, s ∈ acceptableHosts sh sp ↔
      (s = sh ++ pys ":" ++ intToDec sp ∨
        ((sh = pys "127.0.0.1" ∨ sh = pys "localhost" ∨ sh = pys "0.0.0.0") ∧
          (s = pys "localhost:" ++ intToDec sp ∨
           s = pys "127.0.0.1:" ++ intToDec sp)))) ∧
    (∀ host port,
      (hostCheck host port sh sp = .ok (host ++ pys ":" ++ intToDec port) ↔
        (host ++ pys ":" ++ intToDec port) ∈ acceptableHosts sh sp) ∧
      (hostCheck host port sh sp = .bad 403 ↔
        (host ++ pys ":" ++ intToDec port) ∉ acceptableHosts sh sp)) := by
  refine ⟨rfl, rfl, ?_, ?_, ?_, ?_, ?_⟩
  · intro hv host portStr hne hsplit hint
    simp [valid_host_header, hne, hsplit, hint]
  · intro hv host portStr port hne hsplit hint
    simp [valid_host_header, hne, hsplit, hint]
  · intro hv hne hsplit
    simp [valid_host_header, hne, hsplit]
  · intro s
    by_cases h : sh = pys "127.0.0.1" ∨ sh = pys "localhost" ∨ sh = pys "0.0.0.0"
    · simp only [acceptableHosts, h, if_true, List.mem_append, List.mem_singleton,
        List.mem_cons, List.not_mem_nil, or_false]
      tauto
    · simp only [acceptableHosts, h, if_false, List.mem_append, List.mem_singleton,
        List.mem_cons, List.not_mem_nil, or_false]
      tauto
  · intro host port
    by_cases h : (host ++ pys ":" ++ intToDec port) ∈ acceptableHosts sh sp <;>
      simp [hostCheck, h]

/-- Closed instance for C3: concrete checks through the theorem at bind
identity `127.0.0.1:8080`. -/
theorem C3_host_validator_witness :
    valid_host_header (some (pys "a:x")) (pys "127.0.0.1") 8080 = .bad 400 ∧
    valid_host_header (some (pys "localhost:8080")) (pys "127.0.0.1") 8080 =
      .ok (pys "localhost:8080") ∧
    valid_host_header (some (pys "example.com")) (pys "127.0.0.1") 8080 = .bad 403 := by
  refine ⟨?_, ?_, ?_⟩
  · exact (C3_host_validator (pys "127.0.0.1") 8080).2.2.1 (pys "a:x") (pys "a")
      (pys "x") (by decide) (by decide) (by decide)
  · have h := (C3_host_validator (pys "127.0.0.1") 8080).2.2.2.1 (pys "localhost:8080")
      (pys "localhost") (pys "8080") 8080 (by decide) (by decide) (by decide)
    rw [h]
    have := ((C3_host_validator (pys "127.0.0.1") 8080).2.2.2.2.2.2 (pys "localhost")
      8080).1.mpr (by decide)
    simpa using this
  · have h := (C3_host_validator (pys "127.0.0.1") 8080).2.2.2.2.1 (pys "example.com")
      (by decide) (by decide)
    rw [h]
    have := ((C3_host_validator (pys "127.0.0.1") 8080).2.2.2.2.2.2 (pys "example.com")
      8080).2.mpr (by decide)
    simpa using this

/-- Counterexample to **C6** as stated: for the header value
`application/json ;charset=utf-8` the segment before the first `;` is
`application/json ` (with a trailing space), which does not equal
`application/json` — yet the responder does not answer 415: it strips the
segment, accepts the upload and answers 201 with a file written. -/
theorem C6_counterexample_media_type_whitespace :
    (match splitOnceSub (pys ";") (pys "application/json ;charset=utf-8") with
      | some (a, _) => a
      | none => pys "application/json ;charset=utf-8") ≠ pys "application/json" ∧
    (handle_post (pys "D") ⟨2025, 1, 2, 3, 4, 5⟩ [0, 1, 2, 3]
      [(pys "Content-Type", pys "application/json ;charset=utf-8")]
      (pys "1") true).resp.status = 201 ∧
    (handle_post (pys "D") ⟨2025, 1, 2, 3, 4, 5⟩ [0, 1, 2, 3]
      [(pys "Content-Type", pys "application/json ;charset=utf-8")]
      (pys "1") true).written ≠ none := by
  refine ⟨by decide, by decide, by decide⟩

/-- **C6 (amended).** With the media-type segment before the first `;` taken
after whitespace stripping (as `.strip()` does): a segment differing from
`application/json` is answered 415 with no file written; an equal segment
whose body fails UTF-8 decoding or JSON parsing is answered 400 with no
file written. -/
theorem C6_post_gate (dateStr : PyStr) (now : Timestamp) (picks : List Nat)
    (headers : PyDict) (body : Bytes) (ka : Bool) :
    (pystrip (match splitOnceSub (pys ";") (dictGetD headers (pys "Content-Type") []) with
        | some (a, _) => a
        | none => dictGetD headers (pys "Content-Type") []) ≠ pys "application/json" →
      (handle_post dateStr now picks headers body ka).resp.status = 415 ∧
      (handle_post dateStr now picks headers body ka).written = none) ∧
    (pystrip (match splitOnceSub (pys ";") (dictGetD headers (pys "Content-Type") []) with
        | some (a, _) => a
        | none => dictGetD headers (pys "Content-Type") []) = pys "application/json" →
      ((utf8Decode body).elim True fun txt => jsonLoads txt = none) →
      (handle_post dateStr now picks headers body ka).resp.status = 400 ∧
      (handle_post dateStr now picks headers body ka).written = none) := by
  constructor
  · intro hne
    simp [handle_post, hne, send_error, make_response]
  · intro heq hfail
    rcases hdec : utf8Decode body with _ | txt
    · simp [handle_post, heq, hdec, send_error, make_response]
    · rw [hdec] at hfail
      simp only [Option.elim] at hfail
      simp [handle_post, heq, hdec, hfail, send_error, make_response]

/-- Closed instance for C6 (amended): `text/plain` is refused with 415 and
nothing written; `application/json` with the non-JSON body `hi` is refused
with 400 and nothing written. -/
theorem C6_post_gate_witness :
    ((handle_post (pys "D") ⟨2025, 1, 2, 3, 4, 5⟩ [0, 1, 2, 3]
      [(pys "Content-Type", pys "text/plain")] (pys "hi") true).resp.status = 415 ∧
     (handle_post (pys "D") ⟨2025, 1, 2, 3, 4, 5⟩ [0, 1, 2, 3]
      [(pys "Content-Type", pys "text/plain")] (pys "hi") true).written = none) ∧
    ((handle_post (pys "D") ⟨2025, 1, 2, 3, 4, 5⟩ [0, 1, 2, 3]
      [(pys "Content-Type", pys "application/json")] (pys "hi") true).resp.status = 400 ∧
     (handle_post (pys "D") ⟨2025, 1, 2, 3, 4, 5⟩ [0, 1, 2, 3]
      [(pys "Content-Type", pys "application/json")] (pys "hi") true).written = none) := by
  constructor
  · exact (C6_post_gate (pys "D") ⟨2025, 1, 2, 3, 4, 5⟩ [0, 1, 2, 3]
      [(pys "Content-Type", pys "text/plain")] (pys "hi") true).1 (by decide)
  · exact (C6_post_gate (pys "D") ⟨2025, 1, 2, 3, 4, 5⟩ [0, 1, 2, 3]
      [(pys "Content-Type", pys "application/json")] (pys "hi") true).2
      (by decide) (by exact rfl)

/-- **C5.** `handle_get`: failed resolution, a missing file or a non-regular
file answer 404; a `.html` extension (lowercased) answers 200 with
`text/html; charset=utf-8` and the exact byte length; `.txt`/`.png`/`.jpg`/
`.jpeg` answer 200 with `application/octet-stream`, the file size and an
attachment `Content-Disposition` carrying the basename; any other extension
answers 415. -/
theorem C5_get_responder (env : SymlinkEnv) (resDir : PyStr) (fs : FileSys)
    (dateStr path : PyStr) (ka : Bool) :
    (safe_join_resources env resDir path = none →
      (handle_get env resDir fs dateStr path ka).resp.status = 404) ∧
    (∀ fp, safe_join_resources env resDir path = some fp →
      ((fsExists fs fp = false ∨ fsIsFile fs fp = false) →
        (handle_get env resDir fs dateStr path ka).resp.status = 404) ∧
      (fsIsFile fs fp = true →
        (pyLower (pySplitextExt fp) = pys ".html" →
          (handle_get env resDir fs dateStr path ka).resp.status = 200 ∧
          dictGet (handle_get env resDir fs dateStr path ka).resp.headers
            (pys "Content-Type") = some (pys "text/html; charset=utf-8") ∧
          dictGet (handle_get env resDir fs dateStr path ka).resp.headers
            (pys "Content-Length") = some (natToDec ((fsFile fs fp).getD []).length) ∧
          (handle_get env resDir fs dateStr path ka).resp.body = (fsFile fs fp).getD []) ∧
        (pyLower (pySplitextExt fp) ∈ SUPPORTED_BINARY →
          (handle_get env resDir fs dateStr path ka).resp.status = 200 ∧
          dictGet (handle_get env resDir fs dateStr path ka).resp.headers
            (pys "Content-Type") = some (pys "application/octet-stream") ∧
          dictGet (handle_get env resDir fs dateStr path ka).resp.headers
            (pys "Content-Length") = some (natToDec (fsSize fs fp)) ∧
          dictGet (handle_get env resDir fs dateStr path ka).resp.headers
            (pys "Content-Disposition") =
            some (pys "attachment; filename=\"" ++ pyBasename fp ++ pys "\"")) ∧
        (pyLower (pySplitextExt fp) ≠ pys ".html" →
          pyLower (pySplitextExt fp) ∉ SUPPORTED_BINARY →
          (handle_get env resDir fs dateStr path ka).resp.status = 415))) := by
  constructor
  · intro h
    simp [handle_get, h, send_error, make_response]
  · intro fp hfp
    refine ⟨?_, ?_⟩
    · intro h
      simp [handle_get, hfp, h, send_error, make_response]
    · intro hfile
      refine ⟨?_, ?_, ?_⟩
      · intro hext
        have hres : handle_get env resDir fs dateStr path ka =
            ⟨make_response dateStr 200 (pys "OK")
              [(pys "Content-Type", pys "text/html; charset=utf-8"),
               (pys "Content-Length", natToDec ((fsFile fs fp).getD []).length),
               (pys "Connection", connectionValue ka),
               (pys "Keep-Alive", pys "timeout=30, max=100")] ((fsFile fs fp).getD []),
             []⟩ := by
          simp [handle_get, hfp, fsExists, hfile, hext]
        rw [hres]
        refine ⟨rfl, ?_, ?_, rfl⟩
        · rw [dictGet_make_response _ _ _ _ _ _ (by rfl)]; rfl
        · rw [dictGet_make_response _ _ _ _ _ _ (by rfl)]; rfl
      · intro hext
        have hne : pyLower (pySplitextExt fp) ≠ pys ".html" := by
          intro hcontra
          rw [hcontra] at hext
          simp [SUPPORTED_BINARY, pys] at hext
        have hres : handle_get env resDir fs dateStr path ka =
            ⟨make_response dateStr 200 (pys "OK")
              [(pys "Content-Type", pys "application/octet-stream"),
               (pys "Content-Length", natToDec (fsSize fs fp)),
               (pys "Content-Disposition",
                 pys "attachment; filename=\"" ++ pyBasename fp ++ pys "\""),
               (pys "Connection", connectionValue ka)] [],
             chunksOf ((fsFile fs fp).getD [])⟩ := by
          simp [handle_get, hfp, fsExists, hfile, hne, hext]
        rw [hres]
        refine ⟨rfl, ?_, ?_, ?_⟩
        · rw [dictGet_make_response _ _ _ _ _ _ (by rfl)]; rfl
        · rw [dictGet_make_response _ _ _ _ _ _ (by rfl)]; rfl
        · rw [dictGet_make_response _ _ _ _ _ _ (by rfl)]; rfl
      · intro hne hnb
        simp [handle_get, hfp, fsExists, hfile, hne, hnb, send_error, make_response]

/-- Closed instance for C5: a three-file resource tree exercises the
404, `.html`, binary and 415 branches through the theorem. -/
theorem C5_get_responder_witness :
    ((handle_get [] (pys "/srv/resources")
        ⟨[(pys "/srv/resources/index.html", pys "hello world\n"),
          (pys "/srv/resources/logo.png", List.replicate 2048 0),
          (pys "/srv/resources/prog.exe", [1])], []⟩
        (pys "D") (pys "/missing.html") true).resp.status = 404) ∧
    ((handle_get [] (pys "/srv/resources")
        ⟨[(pys "/srv/resources/index.html", pys "hello world\n"),
          (pys "/srv/resources/logo.png", List.replicate 2048 0),
          (pys "/srv/resources/prog.exe", [1])], []⟩
        (pys "D") (pys "/") true).resp.status = 200) ∧
    (dictGet (handle_get [] (pys "/srv/resources")
        ⟨[(pys "/srv/resources/index.html", pys "hello world\n"),
          (pys "/srv/resources/logo.png", List.replicate 2048 0),
          (pys "/srv/resources/prog.exe", [1])], []⟩
        (pys "D") (pys "/") true).resp.headers (pys "Content-Length") =
      some (pys "12")) ∧
    (dictGet (handle_get [] (pys "/srv/resources")
        ⟨[(pys "/srv/resources/index.html", pys "hello world\n"),
          (pys "/srv/resources/logo.png", List.replicate 2048 0),
          (pys "/srv/resources/prog.exe", [1])], []⟩
        (pys "D") (pys "/logo.png") true).resp.headers (pys "Content-Disposition") =
      some (pys "attachment; filename=\"logo.png\"")) ∧
    ((handle_get [] (pys "/srv/resources")
        ⟨[(pys "/srv/resources/index.html", pys "hello world\n"),
          (pys "/srv/resources/logo.png", List.replicate 2048 0),
          (pys "/srv/resources/prog.exe", [1])], []⟩
        (pys "D") (pys "/prog.exe") true).resp.status = 415) := by
  refine ⟨?_, ?_, ?_, ?_, ?_⟩
  · exact ((C5_get_responder [] (pys "/srv/resources") _ (pys "D")
      (pys "/missing.html") true).2 (pys "/srv/resources/missing.html")
      (by decide)).1 (Or.inl (by decide))
  · exact (((C5_get_responder [] (pys "/srv/resources") _ (pys "D")
      (pys "/") true).2 (pys "/srv/resources/index.html")
      (by decide)).2 (by decide)).1 (by decide) |>.1
  · exact ((((C5_get_responder [] (pys "/srv/resources") _ (pys "D")
      (pys "/") true).2 (pys "/srv/resources/index.html")
      (by decide)).2 (by decide)).1 (by decide)).2.2.1
  · exact ((((C5_get_responder [] (pys "/srv/resources") _ (pys "D")
      (pys "/logo.png") true).2 (pys "/srv/resources/logo.png")
      (by decide)).2 (by decide)).2.1 (by decide)).2.2.2
  · exact ((((C5_get_responder [] (pys "/srv/resources") _ (pys "D")
      (pys "/prog.exe") true).2 (pys "/srv/resources/prog.exe")
      (by decide)).2 (by decide)).2.2 (by decide) (by decide))

theorem splitAllSubAux_ne_nil (sep : List Nat) (fuel : Nat) (s : List Nat) :
    splitAllSubAux sep fuel s ≠ [] := by
  cases fuel with
  | zero => simp [splitAllSubAux]
  | succ n =>
    unfold splitAllSubAux
    rcases h : splitOnceSub sep s with _ | ⟨a, b⟩ <;> simp

/-- Python's `split` never returns an empty field list. -/
theorem splitAllSub_ne_nil (sep s : List Nat) : splitAllSub sep s ≠ [] :=
  splitAllSubAux_ne_nil sep (s.length + 1) s

/-- The one-shot split fails exactly when the separator does not occur. -/
theorem splitOnceSub_none_iff (sep : List Nat) (s : List Nat) :
    splitOnceSub sep s = none ↔ containsSeq sep s = false := by
  induction s with
  | nil =>
    by_cases h : sep.isPrefixOf ([] : List Nat) <;> simp [splitOnceSub, containsSeq, h]
  | cons c t ih =>
    cases h : sep.isPrefixOf (c :: t) with
    | true => simp [splitOnceSub, containsSeq, h]
    | false =>
      rcases h2 : splitOnceSub sep t with _ | ⟨a, b⟩ <;>
        simp_all [splitOnceSub, containsSeq, h, h2]

/-- **C10.** `parse_http_request` is total (the model returns `Option`, and
ISO-8859-1 decoding cannot fail); it returns `none` exactly when the first
CRLF-line does not split into three whitespace tokens; and a buffer without
any CRLFCRLF still parses, every line after the first feeding the header
dict and the body left empty. -/
theorem C10_parse_http_request_total (raw : Bytes) :
    (parse_http_request raw = none ↔
      (splitWs ((splitAllSub (pys "\r\n")
        (match splitOnceSub (pys "\r\n\r\n") raw with
         | some p => p.1
         | none => raw)).headD [])).length ≠ 3) ∧
    (containsSeq (pys "\r\n\r\n") raw = false →
      ∀ req, parse_http_request raw = some req →
        req.body = [] ∧
        req.headers = headerLinesToDict ((splitAllSub (pys "\r\n") raw).tail)) := by
  constructor
  · rcases hp : splitOnceSub (pys "\r\n\r\n") raw with _ | ⟨hd, bd⟩ <;>
    · rcases hl : splitAllSub (pys "\r\n")
          (match splitOnceSub (pys "\r\n\r\n") raw with
           | some p => p.1
           | none => raw) with _ | ⟨first, rest⟩
      · exact absurd hl (by rw [hp]; exact splitAllSub_ne_nil _ _)
      · rw [hp] at hl
        rcases ht : splitWs first with _ | ⟨a, _ | ⟨b, _ | ⟨c, _ | ⟨d, t4⟩⟩⟩⟩ <;>
          simp [parse_http_request, hp, hl, ht]
  · intro hnc req hreq
    have hp : splitOnceSub (pys "\r\n\r\n") raw = none :=
      (splitOnceSub_none_iff _ _).mpr hnc
    rcases hl : splitAllSub (pys "\r\n") raw with _ | ⟨first, rest⟩
    · exact absurd hl (splitAllSub_ne_nil _ _)
    · rcases ht : splitWs first with _ | ⟨a, _ | ⟨b, _ | ⟨c, _ | ⟨d, t4⟩⟩⟩⟩ <;>
        simp [parse_http_request, hp, hl, ht] at hreq
      subst hreq
      simp [hl]

/-- Closed instance for C10: a buffer with a well-formed request line and a
header line but no CRLFCRLF terminator parses, with the colon line as a
header and an empty body. -/
theorem C10_parse_http_request_total_witness :
    parse_http_request (pys "GET /x HTTP/1.1\r\nHost: h") =
      some ⟨pys "GET", pys "/x", pys "HTTP/1.1", [(pys "Host", pys "h")], []⟩ ∧
    (⟨pys "GET", pys "/x", pys "HTTP/1.1", [(pys "Host", pys "h")], []⟩ : Request).body
      = [] ∧
    (⟨pys "GET", pys "/x", pys "HTTP/1.1", [(pys "Host", pys "h")], []⟩ : Request).headers
      = headerLinesToDict
          ((splitAllSub (pys "\r\n") (pys "GET /x HTTP/1.1\r\nHost: h")).tail) := by
  have h := (C10_parse_http_request_total (pys "GET /x HTTP/1.1\r\nHost: h")).2
    (by decide) ⟨pys "GET", pys "/x", pys "HTTP/1.1", [(pys "Host", pys "h")], []⟩
    (by decide)
  exact ⟨by decide, h.1, h.2⟩

theorem dictGet_dictSet (d : PyDict) (k v n : PyStr) :
    dictGet (dictSet d k v) n = if k = n then some v else dictGet d n := by
  induction d with
  | nil => by_cases h : k = n <;> simp [dictSet, dictGet, h]
  | cons p t ih =>
    by_cases h1 : p.1 = k
    · have hset : dictSet (p :: t) k v = (p.1, v) :: t := by
        unfold dictSet
        rw [if_pos h1]
      by_cases h : k = n
      · rw [hset, if_pos h]
        unfold dictGet
        rw [List.find?_cons_of_pos _ (by simp [h1, h])]
        rfl
      · have hpn : ¬ p.1 = n := fun hc => h (h1 ▸ hc)
        rw [hset, if_neg h]
        unfold dictGet
        rw [List.find?_cons_of_neg _ (by simp [hpn]),
          List.find?_cons_of_neg _ (by simp [hpn])]
    · have hset : dictSet (p :: t) k v = p :: dictSet t k v := by
        rcases p with ⟨a, b⟩
        simp only [dictSet]
        rw [if_neg (by simpa using h1)]
      by_cases h2 : p.1 = n
      · have h : ¬ k = n := fun hc => h1 (by rw [h2, hc])
        rw [hset, if_neg h]
        unfold dictGet
        rw [List.find?_cons_of_pos _ (by simp [h2]),
          List.find?_cons_of_pos _ (by simp [h2])]
      · rw [hset]
        unfold dictGet
        rw [List.find?_cons_of_neg _ (by simp [h2]),
          List.find?_cons_of_neg _ (by simp [h2])]
        exact ih

/-- The header fold realizes last-occurrence-wins with exact (case-sensitive)
name matching: a lookup is the last colon line whose stripped name equals the
key, falling back to the initial dict. -/
theorem dictGet_foldl_hdrStep (lines : List PyStr) (d : PyDict) (name : PyStr) :
    dictGet (lines.foldl hdrStep d) name =
      (lastHeaderValue lines name).or (dictGet d name) := by
  induction lines generalizing d with
  | nil => cases h : dictGet d name <;> simp [lastHeaderValue, Option.or, h]
  | cons l ls ih =>
    rw [List.foldl_cons, ih]
    unfold lastHeaderValue
    have hrev : (l :: ls).reverse = ls.reverse ++ [l] := by simp
    rw [hrev, List.findSome?_append]
    rcases hf : List.findSome? (fun hdr =>
        match splitOnceSub (pys ":") hdr with
        | some (k, v) => if pystrip k = name then some (pystrip v) else none
        | none => none) ls.reverse with _ | x
    · simp only [hf, Option.or]
      unfold hdrStep
      rcases hsp : splitOnceSub (pys ":") l with _ | ⟨k, v⟩
      · simp [List.findSome?, hsp, Option.or]
      · rw [dictGet_dictSet]
        by_cases h : pystrip k = name <;> simp [List.findSome?, hsp, h, Option.or]
    · simp [hf, Option.or]

/-- Counterexample to **C2** as stated: the header dict is a plain
case-sensitive `dict`, so a request sent with the lowercase name `host` is
not retrieved by the lookup under `Host` (the handler's Host validation then
answers 400 despite the header being present). -/
theorem C2_counterexample_header_case :
    parse_http_request (pys "GET / HTTP/1.1\r\nhost: a\r\n\r\n") =
      some ⟨pys "GET", pys "/", pys "HTTP/1.1", [(pys "host", pys "a")], []⟩ ∧
    dictGet [(pys "host", pys "a")] (pys "Host") = none ∧
    dictGet [(pys "host", pys "a")] (pys "host") = some (pys "a") ∧
    valid_host_header (dictGet [(pys "host", pys "a")] (pys "Host"))
      (pys "127.0.0.1") 8080 = .bad 400 := by
  exact ⟨by decide, by decide, by decide, by decide⟩

/-- **C2 (amended).** The parsed header mapping is exact-match and
case-sensitive in the name; a lookup returns the stripped value of the last
header line whose stripped name equals the looked-up name exactly (`none`
when no such line exists). -/
theorem C2_header_lookup_exact_last (raw : Bytes) (req : Request) (name : PyStr)
    (hreq : parse_http_request raw = some req) :
    dictGet req.headers name =
      lastHeaderValue ((splitAllSub (pys "\r\n")
        (match splitOnceSub (pys "\r\n\r\n") raw with
         | some p => p.1
         | none => raw)).tail) name := by
  rcases hp : splitOnceSub (pys "\r\n\r\n") raw with _ | ⟨hd, bd⟩ <;>
  · rcases hl : splitAllSub (pys "\r\n")
        (match splitOnceSub (pys "\r\n\r\n") raw with
         | some p => p.1
         | none => raw) with _ | ⟨first, rest⟩
    · exact absurd hl (by rw [hp]; exact splitAllSub_ne_nil _ _)
    · rw [hp] at hl
      rcases ht : splitWs first with _ | ⟨a, _ | ⟨b, _ | ⟨c, _ | ⟨d, t4⟩⟩⟩⟩ <;>
        simp [parse_http_request, hp, hl, ht] at hreq
      subst hreq
      have h := dictGet_foldl_hdrStep rest [] name
      simp only [headerLinesToDict, hl, List.tail_cons]
      rw [h]
      cases lastHeaderValue rest name <;> simp [dictGet, Option.or]

/-! ### Round-trip: whitespace handling -/

theorem skipJsonWs_append_ws (pre x : List Nat)
    (h : ∀ c ∈ pre, isJsonWs c = true) :
    skipJsonWs (pre ++ x) = skipJsonWs x := by
  induction pre with
  | nil => rfl
  | cons c t ih =>
    have hc : isJsonWs c = true := h c (by simp)
    rw [List.cons_append, skipJsonWs, if_pos hc]
    exact ih (fun d hd => h d (by simp [hd]))

theorem skipJsonWs_not_ws (x : List Nat) (h : isJsonWs (x.headD 48) = false) :
    skipJsonWs x = x := by
  cases x with
  | nil => rfl
  | cons c t =>
    simp only [List.headD_cons] at h
    rw [skipJsonWs, if_neg (by simp [h])]

theorem nlIndent_ws (d : Nat) : ∀ c ∈ nlIndent d, isJsonWs c = true := by
  intro c hc
  simp only [nlIndent, List.mem_cons, List.eq_of_mem_replicate] at hc
  rcases hc with h | h
  · simp [isJsonWs, h]
  · simp [isJsonWs, List.eq_of_mem_replicate h]

theorem parseJsonVal_ws_pre (fuel : Nat) (pre cs : List Nat)
    (h : ∀ c ∈ pre, isJsonWs c = true) :
    parseJsonVal fuel (pre ++ cs) = parseJsonVal fuel cs := by
  cases fuel with
  | zero => rfl
  | succ f => simp only [parseJsonVal, skipJsonWs_append_ws pre cs h]

theorem parseJsonElems_ws_pre (fuel : Nat) (pre cs : List Nat)
    (h : ∀ c ∈ pre, isJsonWs c = true) :
    parseJsonElems fuel (pre ++ cs) = parseJsonElems fuel cs := by
  cases fuel with
  | zero => rfl
  | succ f => simp only [parseJsonElems, parseJsonVal_ws_pre f pre cs h]

theorem parseJsonMembers_ws_pre (fuel : Nat) (pre cs : List Nat)
    (h : ∀ c ∈ pre, isJsonWs c = true) :
    parseJsonMembers fuel (pre ++ cs) = parseJsonMembers fuel cs := by
  cases fuel with
  | zero => rfl
  | succ f => simp only [parseJsonMembers, skipJsonWs_append_ws pre cs h]

/-! ### Round-trip: decimal numerals -/

theorem natToDecAux_zero (fuel : Nat) : natToDecAux fuel 0 = [] := by
  cases fuel <;> simp [natToDecAux]

theorem natToDecAux_all_digits (fuel : Nat) :
    ∀ n, n ≤ fuel → ∀ c ∈ natToDecAux fuel n, isDigitCp c = true := by
  induction fuel with
  | zero => intro n hn c hc; interval_cases n; simp [natToDecAux] at hc
  | succ f ih =>
    intro n hn c hc
    by_cases h0 : n = 0
    · simp [natToDecAux, h0] at hc
    · rw [natToDecAux, if_neg h0] at hc
      rcases List.mem_append.mp hc with h | h
      · exact ih (n / 10) (by omega) c h
      · simp only [List.mem_singleton] at h
        have := Nat.mod_lt n (show 0 < 10 by omega)
        simp [isDigitCp, h]
        omega

theorem natToDecAux_head (fuel : Nat) :
    ∀ n, 1 ≤ n → n ≤ fuel →
      49 ≤ (natToDecAux fuel n).headD 0 ∧ (natToDecAux fuel n).headD 0 ≤ 57 := by
  induction fuel with
  | zero => intro n h1 h2; omega
  | succ f ih =>
    intro n h1 h2
    rw [natToDecAux, if_neg (by omega)]
    by_cases hsmall : n < 10
    · rw [show n / 10 = 0 by omega, natToDecAux_zero]
      simp only [List.nil_append, List.headD_cons]
      omega
    · have hq : 1 ≤ n / 10 := by omega
      have hle : n / 10 ≤ f := by
        have := Nat.div_lt_self (by omega : 0 < n) (by omega : 1 < 10)
        omega
      have := ih (n / 10) hq hle
      rcases hA : natToDecAux f (n / 10) with _ | ⟨a, t⟩
      · rw [hA] at this; simp at this
      · rw [hA] at this
        simpa using this

theorem foldl_natToDecAux (fuel : Nat) :
    ∀ n, n ≤ fuel → ∀ acc,
      (natToDecAux fuel n).foldl (fun a c => a * 10 + (c - 48)) acc =
        acc * 10 ^ (natToDecAux fuel n).length + n := by
  induction fuel with
  | zero => intro n hn acc; interval_cases n; simp [natToDecAux]
  | succ f ih =>
    intro n hn acc
    by_cases h0 : n = 0
    · simp [natToDecAux, h0]
    · rw [natToDecAux, if_neg h0]
      have hle : n / 10 ≤ f := by
        have := Nat.div_lt_self (by omega : 0 < n) (by omega : 1 < 10)
        omega
      rw [List.foldl_append, List.length_append, ih (n / 10) hle acc]
      simp only [List.foldl_cons, List.foldl_nil, List.length_singleton]
      have hmod : n % 10 + 48 - 48 = n % 10 := by omega
      rw [hmod, pow_succ]
      have hdm := Nat.div_add_mod n 10
      ring_nf
      omega

theorem digitsToNat_natToDec (n : Nat) : digitsToNat (natToDec n) = n := by
  by_cases h0 : n = 0
  · simp [natToDec, h0, digitsToNat]
  · rw [natToDec, if_neg h0]
    unfold digitsToNat
    rw [foldl_natToDecAux (n + 1) n (by omega) 0]
    simp

theorem natToDec_all_digits (n : Nat) : ∀ c ∈ natToDec n, isDigitCp c = true := by
  by_cases h0 : n = 0
  · simp [natToDec, h0, isDigitCp]
  · rw [natToDec, if_neg h0]
    exact natToDecAux_all_digits (n + 1) n (by omega)

theorem natToDec_head (n : Nat) (h : 1 ≤ n) :
    49 ≤ (natToDec n).headD 0 ∧ (natToDec n).headD 0 ≤ 57 := by
  rw [natToDec, if_neg (by omega)]
  exact natToDecAux_head (n + 1) n h (by omega)

theorem natToDec_ne_nil (n : Nat) : natToDec n ≠ [] := by
  by_cases h0 : n = 0
  · simp [natToDec, h0]
  · intro hc
    have := natToDec_head n (by omega)
    rw [hc] at this
    simp at this

theorem takeDigits_append (ds rest : List Nat)
    (hds : ∀ c ∈ ds, isDigitCp c = true)
    (hrest : isDigitCp (rest.headD 0) = false) :
    takeDigits (ds ++ rest) = (ds, rest) := by
  induction ds with
  | nil =>
    cases rest with
    | nil => rfl
    | cons c t =>
      simp only [List.headD_cons] at hrest
      simp [takeDigits, hrest]
  | cons c t ih =>
    have hc : isDigitCp c = true := hds c (by simp)
    rw [List.cons_append, takeDigits]
    simp [hc, ih (fun d hd => hds d (by simp [hd]))]

/-- The facts `numDelim` gives about the head of the continuation. -/
theorem numDelim_head_facts (rest : List Nat) (h : numDelim rest = true) :
    isDigitCp (rest.headD 0) = false ∧ rest.headD 0 ≠ 46 ∧
    rest.headD 0 ≠ 101 ∧ rest.headD 0 ≠ 69 ∧ rest.headD 0 ≠ 45 := by
  cases rest with
  | nil => simp [isDigitCp]
  | cons c t =>
    simp only [numDelim, Bool.or_eq_true, beq_iff_eq] at h
    simp only [List.headD_cons]
    have hc : c = 44 ∨ c = 10 ∨ c = 93 ∨ c = 125 := by tauto
    rcases hc with h2 | h2 | h2 | h2 <;> subst h2 <;> simp [isDigitCp]

/-- The number scanner recovers an integer numeral followed by a
delimiter. -/
theorem readNumber_intToDec (n : Int) (rest : List Nat)
    (hrest : numDelim rest = true) :
    readNumber (intToDec n ++ rest) = some (.num n, rest) := by
  obtain ⟨hnd, h46, h101, h69, h45⟩ := numDelim_head_facts rest hrest
  have hfrac : readFracPart rest = ([], rest) := by
    rw [readFracPart, if_neg h46]
  have hexp : readExpPart rest = (false, [], rest) := by
    rw [readExpPart, if_neg (by tauto)]
  by_cases hneg : n < 0
  · have hm : 1 ≤ (-n).toNat := by omega
    rw [intToDec, if_pos hneg]
    rcases hnd2 : natToDec (-n).toNat with _ | ⟨c, t⟩
    · exact absurd hnd2 (natToDec_ne_nil _)
    · have hhead := natToDec_head (-n).toNat hm
      rw [hnd2] at hhead
      simp only [List.headD_cons] at hhead
      have hct : ∀ d ∈ c :: t, isDigitCp d = true := by
        rw [← hnd2]; exact natToDec_all_digits _
      have htd : takeDigits (t ++ rest) = (t, rest) :=
        takeDigits_append t rest (fun d hd => hct d (by simp [hd])) hnd
      have hval : digitsToNat (c :: t) = (-n).toNat := by
        rw [← hnd2]; exact digitsToNat_natToDec _
      have hc48 : ¬ (c = 48) := by omega
      have hcd : isDigitCp c = true := hct c (by simp)
      rw [readNumber]
      simp only [List.cons_append, List.headD_cons, List.tail_cons]
      simp [hc48, hcd, htd, hfrac, hexp, hval]
      omega
  · rw [intToDec, if_neg hneg]
    rcases hnd2 : natToDec n.toNat with _ | ⟨c, t⟩
    · exact absurd hnd2 (natToDec_ne_nil _)
    · have hct : ∀ d ∈ c :: t, isDigitCp d = true := by
        rw [← hnd2]; exact natToDec_all_digits _
      have htd : takeDigits (t ++ rest) = (t, rest) :=
        takeDigits_append t rest (fun d hd => hct d (by simp [hd])) hnd
      have hval : digitsToNat (c :: t) = n.toNat := by
        rw [← hnd2]; exact digitsToNat_natToDec _
      have hcd : isDigitCp c = true := hct c (by simp)
      have hc45 : ¬ (c = 45) := by
        simp only [isDigitCp, Bool.and_eq_true, decide_eq_true_eq] at hcd
        omega
      by_cases hc48 : c = 48
      · have hn0 : n = 0 := by
          by_cases h0 : n.toNat = 0
          · omega
          · have := natToDec_head n.toNat (by omega)
            rw [hnd2] at this
            simp only [List.headD_cons] at this
            omega
        have ht : t = [] := by
          rw [hn0] at hnd2
          simp [natToDec] at hnd2
          exact hnd2.2
        subst ht
        subst hc48
        rw [readNumber]
        simp only [List.cons_append, List.headD_cons, List.nil_append]
        simp [hc45, hfrac, hexp, digitsToNat, hn0]
      · rw [readNumber]
        simp only [List.cons_append, List.headD_cons]
        simp [hc45, hc48, hcd, htd, hfrac, hexp, hval]
        omega

/-! ### Round-trip: string escapes -/

theorem hexDigitVal_jsonHexDigit (d : Nat) (h : d < 16) :
    hexDigitVal (jsonHexDigit d) = some d := by
  interval_cases d <;> rfl

theorem readHex4_hex4Of (v : Nat) (h : v < 65536) (r : List Nat) :
    readHex4 (hex4Of v ++ r) = some (v, r) := by
  have h3 : v / 4096 % 16 < 16 := Nat.mod_lt _ (by omega)
  have h2 : v / 256 % 16 < 16 := Nat.mod_lt _ (by omega)
  have h1 : v / 16 % 16 < 16 := Nat.mod_lt _ (by omega)
  have h0 : v % 16 < 16 := Nat.mod_lt _ (by omega)
  simp only [hex4Of, List.cons_append, List.nil_append, readHex4,
    hexDigitVal_jsonHexDigit _ h3, hexDigitVal_jsonHexDigit _ h2,
    hexDigitVal_jsonHexDigit _ h1, hexDigitVal_jsonHexDigit _ h0]
  have hv : ((v / 4096 % 16 * 16 + v / 256 % 16) * 16 + v / 16 % 16) * 16 + v % 16 = v := by
    omega
  rw [hv]

theorem surrPairLook_quote (rest : List Nat) : surrPairLook (34 :: rest) = .keep := by
  cases rest with
  | nil => rfl
  | cons b r => simp [surrPairLook]

/-- After a kept high surrogate, the escape of the next code point (which is
not a low surrogate) never looks like a pairable `\uDCxx`. -/
theorem surrPairLook_escCp (c2 : Nat) (h : c2 < 1114112) (hlo : isLoSur c2 = false)
    (t : List Nat) : surrPairLook (escCp c2 ++ t) = .keep := by
  by_cases h34 : c2 = 34
  · subst h34; simp [escCp, surrPairLook]
  by_cases h92 : c2 = 92
  · subst h92; simp [escCp, surrPairLook]
  by_cases h10 : c2 = 10
  · subst h10; simp [escCp, surrPairLook]
  by_cases h13 : c2 = 13
  · subst h13; simp [escCp, surrPairLook]
  by_cases h9 : c2 = 9
  · subst h9; simp [escCp, surrPairLook]
  by_cases h8 : c2 = 8
  · subst h8; simp [escCp, surrPairLook]
  by_cases h12 : c2 = 12
  · subst h12; simp [escCp, surrPairLook]
  by_cases hprint : 32 ≤ c2 ∧ c2 ≤ 126
  · have hesc : escCp c2 = [c2] := by
      simp [escCp, h34, h92, h10, h13, h9, h8, h12, hprint]
    rw [hesc]
    cases t with
    | nil => rfl
    | cons x xs => simp [surrPairLook, h92]
  by_cases hbmp : c2 < 65536
  · have hesc : escCp c2 = [92, 117] ++ hex4Of c2 := by
      simp [escCp, h34, h92, h10, h13, h9, h8, h12, hprint, hbmp]
    rw [hesc]
    have hexr : readHex4 (hex4Of c2 ++ t) = some (c2, t) := readHex4_hex4Of c2 hbmp t
    have hnlo : ¬ (56320 ≤ c2 ∧ c2 ≤ 57343) := by
      simp only [isLoSur, Bool.and_eq_true, decide_eq_true_eq] at hlo
      intro hcon
      exact absurd (by simp [hcon.1, hcon.2] : (decide (56320 ≤ c2) && decide (c2 ≤ 57343)) = true)
        (by simp [hlo])
    simp [surrPairLook, hexr, hnlo]
  · have hesc : escCp c2 = [92, 117] ++ hex4Of (55296 + (c2 - 65536) / 1024)
        ++ [92, 117] ++ hex4Of (56320 + (c2 - 65536) % 1024) := by
      simp [escCp, h34, h92, h10, h13, h9, h8, h12, hprint, hbmp]
    rw [hesc]
    have hhi : 55296 + (c2 - 65536) / 1024 < 65536 := by omega
    have hexr : readHex4 (hex4Of (55296 + (c2 - 65536) / 1024)
        ++ ([92, 117] ++ hex4Of (56320 + (c2 - 65536) % 1024) ++ t))
        = some (55296 + (c2 - 65536) / 1024,
            [92, 117] ++ hex4Of (56320 + (c2 - 65536) % 1024) ++ t) :=
      readHex4_hex4Of _ hhi _
    have hnlo : ¬ (56320 ≤ 55296 + (c2 - 65536) / 1024 ∧
        55296 + (c2 - 65536) / 1024 ≤ 57343) := by omega
    simp only [List.append_assoc, List.cons_append, List.nil_append] at hexr ⊢
    simp [surrPairLook, hexr, hnlo]

theorem isLoSur_false_of_wf_pair (c c2 : Nat) (cs2 : PyStr)
    (hwf : wfStr (c :: c2 :: cs2) = true) (hhi : isHiSur c = true) :
    isLoSur c2 = false := by
  simp only [wfStr, Bool.and_eq_true] at hwf
  have := hwf.1.2
  simp only [Bool.not_eq_true', Bool.and_eq_false_iff] at this
  rcases this with h | h
  · rw [hhi] at h; simp at h
  · exact h

theorem wfStr_head_lt (c2 : Nat) (cs2 : PyStr) (hwf : wfStr (c2 :: cs2) = true) :
    c2 < 1114112 := by
  simp only [wfStr, Bool.and_eq_true, decide_eq_true_eq] at hwf
  exact hwf.1.1

theorem wfStr_tail (c : Nat) (cs : PyStr) (hwf : wfStr (c :: cs) = true) :
    wfStr cs = true := by
  simp only [wfStr, Bool.and_eq_true] at hwf
  exact hwf.2

theorem readStrAux_quote (f : Nat) (acc : PyStr) (T : List Nat) :
    readStrAux (f + 1) acc (34 :: T) = some (acc.reverse, T) := by
  simp only [readStrAux]
  simp

theorem readStrAux_short (f : Nat) (acc : PyStr) (e unesc : Nat) (T : List Nat)
    (he : jsonUnescape e = some unesc) (hne : e ≠ 117) :
    readStrAux (f + 1) acc (92 :: e :: T) = readStrAux f (unesc :: acc) T := by
  simp only [readStrAux]
  simp [he, hne]

theorem readStrAux_raw (f : Nat) (acc : PyStr) (c : Nat) (T : List Nat)
    (h34 : c ≠ 34) (h92 : c ≠ 92) (hge : 32 ≤ c) :
    readStrAux (f + 1) acc (c :: T) = readStrAux f (c :: acc) T := by
  simp only [readStrAux]
  simp [h34, h92, show ¬(c < 32) by omega]

theorem readStrAux_u (f : Nat) (acc : PyStr) (u1 : Nat) (T : List Nat)
    (hu : u1 < 65536) (hns : ¬(55296 ≤ u1 ∧ u1 ≤ 56319)) :
    readStrAux (f + 1) acc (92 :: 117 :: (hex4Of u1 ++ T)) =
      readStrAux f (u1 :: acc) T := by
  simp only [readStrAux]
  simp [readHex4_hex4Of u1 hu T, hns]

theorem readStrAux_u_hi_keep (f : Nat) (acc : PyStr) (u1 : Nat) (T : List Nat)
    (hu : u1 < 65536) (hs : 55296 ≤ u1 ∧ u1 ≤ 56319)
    (hk : surrPairLook T = .keep) :
    readStrAux (f + 1) acc (92 :: 117 :: (hex4Of u1 ++ T)) =
      readStrAux f (u1 :: acc) T := by
  simp only [readStrAux]
  simp [readHex4_hex4Of u1 hu T, hs, hk]

theorem readStrAux_u_pairAbs (f : Nat) (acc : PyStr) (hi lo : Nat) (T : List Nat)
    (hhi : 55296 ≤ hi ∧ hi ≤ 56319) (hlo : 56320 ≤ lo ∧ lo ≤ 57343) :
    readStrAux (f + 1) acc (92 :: 117 :: (hex4Of hi ++ (92 :: 117 :: (hex4Of lo ++ T)))) =
      readStrAux f ((65536 + (hi - 55296) * 1024 + (lo - 56320)) :: acc) T := by
  have hhiv : hi < 65536 := by omega
  have hlov : lo < 65536 := by omega
  have hlook : surrPairLook (92 :: 117 :: (hex4Of lo ++ T)) = .pair lo T := by
    simp [surrPairLook, readHex4_hex4Of _ hlov T, hlo]
  simp only [readStrAux]
  simp [readHex4_hex4Of _ hhiv, hhi, hlook]

theorem readStrAux_u_pair (f : Nat) (acc : PyStr) (c : Nat) (T : List Nat)
    (hc1 : 65536 ≤ c) (hc2 : c < 1114112) :
    readStrAux (f + 1) acc (92 :: 117 :: (hex4Of (55296 + (c - 65536) / 1024)
      ++ (92 :: 117 :: (hex4Of (56320 + (c - 65536) % 1024) ++ T)))) =
      readStrAux f (c :: acc) T := by
  have h := readStrAux_u_pairAbs f acc (55296 + (c - 65536) / 1024)
    (56320 + (c - 65536) % 1024) T (by omega) (by omega)
  rw [h]
  have hcomb : 65536 + (55296 + (c - 65536) / 1024 - 55296) * 1024 +
      (56320 + (c - 65536) % 1024 - 56320) = c := by omega
  rw [hcomb]

/-- The string scanner inverts the escaper: the escaped form of a
well-formed string, followed by the closing quote, scans back to the string
itself. -/
theorem readStrAux_flatMap :
    ∀ (s : PyStr) (fuel : Nat) (acc : PyStr) (rest : List Nat),
      wfStr s = true → s.length + 1 ≤ fuel →
      readStrAux fuel acc (s.flatMap escCp ++ (34 :: rest)) =
        some (acc.reverse ++ s, rest) := by
  intro s
  induction s with
  | nil =>
    intro fuel acc rest _ hfuel
    rcases fuel with _ | f
    · omega
    · simp [readStrAux_quote]
  | cons c cs ih =>
    intro fuel acc rest hwf hfuel
    rcases fuel with _ | f
    · simp only [List.length_cons] at hfuel; omega
    · have hflen : cs.length + 1 ≤ f := by
        simp only [List.length_cons] at hfuel; omega
      have hwf' : wfStr cs = true := wfStr_tail c cs hwf
      have hc : c < 1114112 := wfStr_head_lt c cs hwf
      simp only [List.flatMap_cons, List.append_assoc]
      have hacc : ∀ x : Nat, (x :: acc).reverse ++ cs = acc.reverse ++ (x :: cs) := by
        intro x
        simp [List.reverse_cons, List.append_assoc]
      by_cases h34 : c = 34
      · subst h34
        rw [show escCp 34 = [92, 34] from rfl]
        simp only [List.cons_append, List.nil_append]
        rw [readStrAux_short f acc 34 34 _ rfl (by omega), ih f _ rest hwf' hflen, hacc]
      by_cases h92 : c = 92
      · subst h92
        rw [show escCp 92 = [92, 92] from rfl]
        simp only [List.cons_append, List.nil_append]
        rw [readStrAux_short f acc 92 92 _ rfl (by omega), ih f _ rest hwf' hflen, hacc]
      by_cases h10 : c = 10
      · subst h10
        rw [show escCp 10 = [92, 110] from rfl]
        simp only [List.cons_append, List.nil_append]
        rw [readStrAux_short f acc 110 10 _ rfl (by omega), ih f _ rest hwf' hflen, hacc]
      by_cases h13 : c = 13
      · subst h13
        rw [show escCp 13 = [92, 114] from rfl]
        simp only [List.cons_append, List.nil_append]
        rw [readStrAux_short f acc 114 13 _ rfl (by omega), ih f _ rest hwf' hflen, hacc]
      by_cases h9 : c = 9
      · subst h9
        rw [show escCp 9 = [92, 116] from rfl]
        simp only [List.cons_append, List.nil_append]
        rw [readStrAux_short f acc 116 9 _ rfl (by omega), ih f _ rest hwf' hflen, hacc]
      by_cases h8 : c = 8
      · subst h8
        rw [show escCp 8 = [92, 98] from rfl]
        simp only [List.cons_append, List.nil_append]
        rw [readStrAux_short f acc 98 8 _ rfl (by omega), ih f _ rest hwf' hflen, hacc]
      by_cases h12 : c = 12
      · subst h12
        rw [show escCp 12 = [92, 102] from rfl]
        simp only [List.cons_append, List.nil_append]
        rw [readStrAux_short f acc 102 12 _ rfl (by omega), ih f _ rest hwf' hflen, hacc]
      by_cases hprint : 32 ≤ c ∧ c ≤ 126
      · have hesc : escCp c = [c] := by
          simp [escCp, h34, h92, h10, h13, h9, h8, h12, hprint]
        rw [hesc]
        simp only [List.cons_append, List.nil_append]
        rw [readStrAux_raw f acc c _ h34 h92 hprint.1, ih f _ rest hwf' hflen, hacc]
      by_cases hbmp : c < 65536
      · have hesc : escCp c = [92, 117] ++ hex4Of c := by
          simp [escCp, h34, h92, h10, h13, h9, h8, h12, hprint, hbmp]
        rw [hesc]
        simp only [List.cons_append, List.nil_append, List.append_assoc]
        by_cases hhi : 55296 ≤ c ∧ c ≤ 56319
        · have hkeep : surrPairLook (cs.flatMap escCp ++ (34 :: rest)) = .keep := by
            cases cs with
            | nil => simpa using surrPairLook_quote rest
            | cons c2 cs2 =>
              simp only [List.flatMap_cons, List.append_assoc]
              exact surrPairLook_escCp c2 (wfStr_head_lt c2 cs2 hwf')
                (isLoSur_false_of_wf_pair c c2 cs2 hwf
                  (by simp [isHiSur, hhi.1, hhi.2])) _
          rw [readStrAux_u_hi_keep f acc c _ hbmp hhi hkeep, ih f _ rest hwf' hflen, hacc]
        · rw [readStrAux_u f acc c _ hbmp hhi, ih f _ rest hwf' hflen, hacc]
      · have hesc : escCp c = [92, 117] ++ hex4Of (55296 + (c - 65536) / 1024)
            ++ [92, 117] ++ hex4Of (56320 + (c - 65536) % 1024) := by
          simp [escCp, h34, h92, h10, h13, h9, h8, h12, hprint, hbmp]
        rw [hesc]
        simp only [List.cons_append, List.nil_append, List.append_assoc]
        rw [readStrAux_u_pair f acc c _ (by omega) hc, ih f _ rest hwf' hflen, hacc]

/-! ### Round-trip: heads, prefixes and object normalization -/

theorem isPrefixOf_self_append (l r : List Nat) : l.isPrefixOf (l ++ r) = true := by
  induction l with
  | nil => simp [List.isPrefixOf]
  | cons c t ih => simp [List.isPrefixOf, ih]

theorem isPrefixOf_cons_ne (a b : Nat) (as bs : List Nat) (h : ¬ a = b) :
    (a :: as).isPrefixOf (b :: bs) = false := by
  simp [List.isPrefixOf, h]

/-- The first code point of a pretty-printed value: a quote, bracket, brace,
`n`/`t`/`f`, a minus sign, or a digit. -/
theorem dumpVal_head (d : Nat) (v : Json) (hwf : v.wf = true) :
    ∃ c t, dumpVal d v = c :: t ∧
      (c = 34 ∨ c = 91 ∨ c = 123 ∨ c = 110 ∨ c = 116 ∨ c = 102 ∨ c = 45 ∨
        isDigitCp c = true) := by
  cases v with
  | null => exact ⟨110, _, rfl, by tauto⟩
  | bool b =>
    cases b
    · exact ⟨102, _, rfl, by tauto⟩
    · exact ⟨116, _, rfl, by tauto⟩
  | num n =>
    by_cases hneg : n < 0
    · refine ⟨45, natToDec (-n).toNat, ?_, by tauto⟩
      show dumpScalar (.num n) = _
      rw [dumpScalar, intToDec, if_pos hneg]
    · rcases hnd : natToDec n.toNat with _ | ⟨c, t⟩
      · exact absurd hnd (natToDec_ne_nil _)
      · have hdig : isDigitCp c = true :=
          natToDec_all_digits n.toNat c (hnd ▸ List.mem_cons_self c t)
        refine ⟨c, t, ?_, by tauto⟩
        show dumpScalar (.num n) = _
        rw [dumpScalar, intToDec, if_neg hneg, hnd]
  | fnum f => simp [Json.wf] at hwf
  | nan => simp [Json.wf] at hwf
  | inf b => simp [Json.wf] at hwf
  | str s => exact ⟨34, _, rfl, by tauto⟩
  | arr es =>
    cases es
    · exact ⟨91, _, rfl, by tauto⟩
    · exact ⟨91, _, rfl, by tauto⟩
  | obj ms =>
    cases ms
    · exact ⟨123, _, rfl, by tauto⟩
    · exact ⟨123, _, rfl, by tauto⟩

theorem head_class_not_ws (c : Nat)
    (h : c = 34 ∨ c = 91 ∨ c = 123 ∨ c = 110 ∨ c = 116 ∨ c = 102 ∨ c = 45 ∨
      isDigitCp c = true) : isJsonWs c = false := by
  simp only [isDigitCp, Bool.and_eq_true, decide_eq_true_eq] at h
  simp only [isJsonWs, Bool.or_eq_false_iff, beq_eq_false_iff_ne]
  rcases h with h | h | h | h | h | h | h | h <;> omega

theorem head_class_ne (c x : Nat)
    (h : c = 34 ∨ c = 91 ∨ c = 123 ∨ c = 110 ∨ c = 116 ∨ c = 102 ∨ c = 45 ∨
      isDigitCp c = true)
    (hx : x = 93 ∨ x = 125 ∨ x = 44) : ¬ (c = x) := by
  simp only [isDigitCp, Bool.and_eq_true, decide_eq_true_eq] at h
  rcases hx with hx | hx | hx <;> subst hx <;> omega

/-- Inserting a fresh key appends. -/
theorem jsonDictSet_fresh (d : List (PyStr × Json)) (k : PyStr) (v : Json)
    (h : ∀ kv ∈ d, kv.1 ≠ k) : jsonDictSet d k v = d ++ [(k, v)] := by
  induction d with
  | nil => rfl
  | cons p t ih =>
    rcases p with ⟨a, b⟩
    rw [jsonDictSet, if_neg (h (a, b) (by simp))]
    rw [ih (fun kv hkv => h kv (by simp [hkv]))]
    rfl

theorem foldl_jsonDictSet_fresh :
    ∀ (ms d : List (PyStr × Json)),
      (∀ kv ∈ ms, ∀ kv' ∈ d, kv'.1 ≠ kv.1) → keysNodup ms = true →
      ms.foldl (fun acc kv => jsonDictSet acc kv.1 kv.2) d = d ++ ms := by
  intro ms
  induction ms with
  | nil => intro d _ _; simp
  | cons m t ih =>
    intro d hd hnd
    rcases m with ⟨k, v⟩
    simp only [List.foldl_cons]
    rw [jsonDictSet_fresh d k v (fun kv hkv => hd (k, v) (by simp) kv hkv)]
    rw [ih (d ++ [(k, v)]) ?_ ?_]
    · simp
    · intro kv hkv kv' hkv'
      rcases List.mem_append.mp hkv' with h | h
      · exact hd kv (by simp [hkv]) kv' h
      · simp only [List.mem_singleton] at h
        subst h
        simp only [keysNodup, Bool.and_eq_true, List.all_eq_true] at hnd
        have := hnd.1 kv hkv
        simp only [bne_iff_ne] at this
        exact fun hc => this hc.symm
    · simp only [keysNodup, Bool.and_eq_true] at hnd
      exact hnd.2

/-- `dict(pairs)` is the identity on pair lists with distinct keys. -/
theorem jsonDictOf_nodup (ms : List (PyStr × Json)) (h : keysNodup ms = true) :
    jsonDictOf ms = ms := by
  unfold jsonDictOf
  rw [foldl_jsonDictSet_fresh ms [] (by simp) h]
  simp

theorem reqVal_pos (v : Json) : 1 ≤ reqVal v := by
  cases v with
  | str s => simp [reqVal]
  | arr es => cases es <;> simp [reqVal]
  | obj ms => cases ms <;> simp [reqVal]
  | null => simp [reqVal]
  | bool b => simp [reqVal]
  | num n => simp [reqVal]
  | fnum f => simp [reqVal]
  | nan => simp [reqVal]
  | inf b => simp [reqVal]

/-! ### Round-trip: `parseJsonVal` one-step reductions -/

theorem parseJsonVal_null (g : Nat) (rest : List Nat) :
    parseJsonVal (g + 1) (pys "null" ++ rest) = some (.null, rest) := by
  simp only [parseJsonVal]
  rw [show pys "null" ++ rest = 110 :: (pys "ull" ++ rest) from rfl]
  rw [skipJsonWs, if_neg (by decide : ¬(isJsonWs 110 = true))]
  rw [show (110 : Nat) :: (pys "ull" ++ rest) = pys "null" ++ rest from rfl]
  rw [if_pos (isPrefixOf_self_append (pys "null") rest)]
  rw [show (4 : Nat) = (pys "null").length from rfl, List.drop_left]

theorem parseJsonVal_true (g : Nat) (rest : List Nat) :
    parseJsonVal (g + 1) (pys "true" ++ rest) = some (.bool true, rest) := by
  simp only [parseJsonVal]
  rw [show pys "true" ++ rest = 116 :: (pys "rue" ++ rest) from rfl]
  rw [skipJsonWs, if_neg (by decide : ¬(isJsonWs 116 = true))]
  rw [if_neg (by rw [show pys "null" = 110 :: pys "ull" from rfl]; simp [isPrefixOf_cons_ne 110 116 _ _ (by omega)])]
  rw [show (116 : Nat) :: (pys "rue" ++ rest) = pys "true" ++ rest from rfl]
  rw [if_pos (isPrefixOf_self_append (pys "true") rest)]
  rw [show (4 : Nat) = (pys "true").length from rfl, List.drop_left]

theorem parseJsonVal_false (g : Nat) (rest : List Nat) :
    parseJsonVal (g + 1) (pys "false" ++ rest) = some (.bool false, rest) := by
  simp only [parseJsonVal]
  rw [show pys "false" ++ rest = 102 :: (pys "alse" ++ rest) from rfl]
  rw [skipJsonWs, if_neg (by decide : ¬(isJsonWs 102 = true))]
  rw [if_neg (by rw [show pys "null" = 110 :: pys "ull" from rfl]; simp [isPrefixOf_cons_ne 110 102 _ _ (by omega)])]
  rw [if_neg (by rw [show pys "true" = 116 :: pys "rue" from rfl]; simp [isPrefixOf_cons_ne 116 102 _ _ (by omega)])]
  rw [show (102 : Nat) :: (pys "alse" ++ rest) = pys "false" ++ rest from rfl]
  rw [if_pos (isPrefixOf_self_append (pys "false") rest)]
  rw [show (5 : Nat) = (pys "false").length from rfl, List.drop_left]

theorem parseJsonVal_num (g : Nat) (n : Int) (rest : List Nat)
    (hrest : numDelim rest = true) :
    parseJsonVal (g + 1) (intToDec n ++ rest) = some (.num n, rest) := by
  have hhead : ∃ c t, intToDec n = c :: t ∧ (c = 45 ∨ isDigitCp c = true) := by
    by_cases hneg : n < 0
    · exact ⟨45, natToDec (-n).toNat, by rw [intToDec, if_pos hneg], Or.inl rfl⟩
    · rcases hnd : natToDec n.toNat with _ | ⟨c, t⟩
      · exact absurd hnd (natToDec_ne_nil _)
      · exact ⟨c, t, by rw [intToDec, if_neg hneg, hnd],
          Or.inr (natToDec_all_digits n.toNat c (hnd ▸ List.mem_cons_self c t))⟩
  obtain ⟨c, t, hct, hc⟩ := hhead
  have hcfacts : c = 45 ∨ (48 ≤ c ∧ c ≤ 57) := by
    rcases hc with h | h
    · exact Or.inl h
    · simp only [isDigitCp, Bool.and_eq_true, decide_eq_true_eq] at h
      exact Or.inr h
  have hnws : ¬ (isJsonWs c = true) := by
    rcases hcfacts with h | h <;>
      · simp only [isJsonWs, Bool.or_eq_true, beq_iff_eq]
        omega
  simp only [parseJsonVal]
  rw [hct, List.cons_append]
  rw [skipJsonWs, if_neg hnws]
  rw [if_neg (by rw [show pys "null" = 110 :: pys "ull" from rfl]; simp [isPrefixOf_cons_ne 110 c _ _ (by omega)])]
  rw [if_neg (by rw [show pys "true" = 116 :: pys "rue" from rfl]; simp [isPrefixOf_cons_ne 116 c _ _ (by omega)])]
  rw [if_neg (by rw [show pys "false" = 102 :: pys "alse" from rfl]; simp [isPrefixOf_cons_ne 102 c _ _ (by omega)])]
  have h34 : ¬ (c = 34) := by rcases hcfacts with h | h <;> omega
  have h91 : ¬ (c = 91) := by rcases hcfacts with h | h <;> omega
  have h123 : ¬ (c = 123) := by rcases hcfacts with h | h <;> omega
  have hrn : readNumber (c :: (t ++ rest)) = some (.num n, rest) := by
    rw [← List.cons_append, ← hct]
    exact readNumber_intToDec n rest hrest
  simp [h34, h91, h123, hrn]

theorem parseJsonVal_str (g : Nat) (s : PyStr) (rest : List Nat)
    (hwf : wfStr s = true) (hlen : s.length + 1 ≤ g) :
    parseJsonVal (g + 1) (dumpStr s ++ rest) = some (.str s, rest) := by
  simp only [parseJsonVal]
  rw [show dumpStr s ++ rest = 34 :: ((s.flatMap escCp ++ [34]) ++ rest) from by
    simp [dumpStr]]
  rw [skipJsonWs, if_neg (by decide : ¬(isJsonWs 34 = true))]
  rw [if_neg (by rw [show pys "null" = 110 :: pys "ull" from rfl]; simp [isPrefixOf_cons_ne 110 34 _ _ (by omega)])]
  rw [if_neg (by rw [show pys "true" = 116 :: pys "rue" from rfl]; simp [isPrefixOf_cons_ne 116 34 _ _ (by omega)])]
  rw [if_neg (by rw [show pys "false" = 102 :: pys "alse" from rfl]; simp [isPrefixOf_cons_ne 102 34 _ _ (by omega)])]
  have hrs : readStrAux g [] (s.flatMap escCp ++ (34 :: rest)) = some (s, rest) := by
    have := readStrAux_flatMap s g [] rest hwf hlen
    simpa using this
  simp [hrs]

theorem parseJsonVal_arrNil (g : Nat) (rest : List Nat) :
    parseJsonVal (g + 1) ([91, 93] ++ rest) = some (.arr [], rest) := by
  simp only [parseJsonVal]
  rw [show ([91, 93] : List Nat) ++ rest = 91 :: 93 :: rest from rfl]
  rw [skipJsonWs, if_neg (by decide : ¬(isJsonWs 91 = true))]
  rw [if_neg (by rw [show pys "null" = 110 :: pys "ull" from rfl]; simp [isPrefixOf_cons_ne 110 91 _ _ (by omega)])]
  rw [if_neg (by rw [show pys "true" = 116 :: pys "rue" from rfl]; simp [isPrefixOf_cons_ne 116 91 _ _ (by omega)])]
  rw [if_neg (by rw [show pys "false" = 102 :: pys "alse" from rfl]; simp [isPrefixOf_cons_ne 102 91 _ _ (by omega)])]
  simp [skipJsonWs, isJsonWs]

theorem parseJsonVal_objNil (g : Nat) (rest : List Nat) :
    parseJsonVal (g + 1) ([123, 125] ++ rest) = some (.obj [], rest) := by
  simp only [parseJsonVal]
  rw [show ([123, 125] : List Nat) ++ rest = 123 :: 125 :: rest from rfl]
  rw [skipJsonWs, if_neg (by decide : ¬(isJsonWs 123 = true))]
  rw [if_neg (by rw [show pys "null" = 110 :: pys "ull" from rfl]; simp [isPrefixOf_cons_ne 110 123 _ _ (by omega)])]
  rw [if_neg (by rw [show pys "true" = 116 :: pys "rue" from rfl]; simp [isPrefixOf_cons_ne 116 123 _ _ (by omega)])]
  rw [if_neg (by rw [show pys "false" = 102 :: pys "alse" from rfl]; simp [isPrefixOf_cons_ne 102 123 _ _ (by omega)])]
  simp [skipJsonWs, isJsonWs]

theorem parseJsonVal_arrStep (g : Nat) (r : List Nat)
    (h93 : ¬ ((skipJsonWs r).headD 0 = 93)) :
    parseJsonVal (g + 1) (91 :: r) =
      (parseJsonElems g (skipJsonWs r)).map (fun p => (.arr p.1, p.2)) := by
  simp only [parseJsonVal]
  rw [skipJsonWs, if_neg (by decide : ¬(isJsonWs 91 = true))]
  rw [if_neg (by rw [show pys "null" = 110 :: pys "ull" from rfl]; simp [isPrefixOf_cons_ne 110 91 _ _ (by omega)])]
  rw [if_neg (by rw [show pys "true" = 116 :: pys "rue" from rfl]; simp [isPrefixOf_cons_ne 116 91 _ _ (by omega)])]
  rw [if_neg (by rw [show pys "false" = 102 :: pys "alse" from rfl]; simp [isPrefixOf_cons_ne 102 91 _ _ (by omega)])]
  have h93f : ((skipJsonWs r).head?.getD 0 = 93) = False := by
    rcases hl : skipJsonWs r with _ | ⟨a, t⟩ <;> rw [hl] at h93 <;> simp_all
  simp [h93f]

theorem parseJsonVal_objStep (g : Nat) (r : List Nat)
    (h125 : ¬ ((skipJsonWs r).headD 0 = 125)) :
    parseJsonVal (g + 1) (123 :: r) =
      (parseJsonMembers g (skipJsonWs r)).map (fun p => (.obj (jsonDictOf p.1), p.2)) := by
  simp only [parseJsonVal]
  rw [skipJsonWs, if_neg (by decide : ¬(isJsonWs 123 = true))]
  rw [if_neg (by rw [show pys "null" = 110 :: pys "ull" from rfl]; simp [isPrefixOf_cons_ne 110 123 _ _ (by omega)])]
  rw [if_neg (by rw [show pys "true" = 116 :: pys "rue" from rfl]; simp [isPrefixOf_cons_ne 116 123 _ _ (by omega)])]
  rw [if_neg (by rw [show pys "false" = 102 :: pys "alse" from rfl]; simp [isPrefixOf_cons_ne 102 123 _ _ (by omega)])]
  have h125f : ((skipJsonWs r).head?.getD 0 = 125) = False := by
    rcases hl : skipJsonWs r with _ | ⟨a, t⟩ <;> rw [hl] at h125 <;> simp_all
  simp [h125f]

/-! ### Round-trip: the mutual induction -/

mutual
/-- Parsing the pretty-printed form of a well-formed value recovers the
value, given enough fuel and a delimiter-led continuation. -/
theorem rtVal : ∀ (v : Json) (d fuel : Nat) (rest : List Nat),
    v.wf = true → reqVal v ≤ fuel → numDelim rest = true →
    parseJsonVal fuel (dumpVal d v ++ rest) = some (v, rest)
  | .null, _, fuel, rest, _, hreq, _ => by
    rcases fuel with _ | g
    · exact absurd hreq (by simp [reqVal])
    · exact parseJsonVal_null g rest
  | .bool true, _, fuel, rest, _, hreq, _ => by
    rcases fuel with _ | g
    · exact absurd hreq (by simp [reqVal])
    · exact parseJsonVal_true g rest
  | .bool false, _, fuel, rest, _, hreq, _ => by
    rcases fuel with _ | g
    · exact absurd hreq (by simp [reqVal])
    · exact parseJsonVal_false g rest
  | .num n, _, fuel, rest, _, hreq, hrest => by
    rcases fuel with _ | g
    · exact absurd hreq (by simp [reqVal])
    · exact parseJsonVal_num g n rest hrest
  | .fnum f, _, _, _, hwf, _, _ => absurd hwf (by simp [Json.wf])
  | .nan, _, _, _, hwf, _, _ => absurd hwf (by simp [Json.wf])
  | .inf b, _, _, _, hwf, _, _ => absurd hwf (by simp [Json.wf])
  | .str s, _, fuel, rest, hwf, hreq, _ => by
    rcases fuel with _ | g
    · exact absurd hreq (by simp [reqVal])
    · have hws : wfStr s = true := hwf
      have hlen : s.length + 1 ≤ g := by
        simp only [reqVal] at hreq
        omega
      exact parseJsonVal_str g s rest hws hlen
  | .arr [], _, fuel, rest, _, hreq, _ => by
    rcases fuel with _ | g
    · exact absurd hreq (by simp [reqVal])
    · exact parseJsonVal_arrNil g rest
  | .arr (e :: es), d, fuel, rest, hwf, hreq, hrest => by
    rcases fuel with _ | g
    · exact absurd hreq (by simp [reqVal])
    · have hwfe : e.wf = true ∧ jsonWfList es = true := by
        simp only [Json.wf, jsonWfList, Bool.and_eq_true] at hwf
        exact hwf
      have hreq' : reqElems e es ≤ g := by
        simp only [reqVal] at hreq
        omega
      obtain ⟨c0, t0, hd0, hcls⟩ := dumpVal_head (d + 1) e hwfe.1
      have harr : dumpVal d (.arr (e :: es)) ++ rest
          = 91 :: (nlIndent (d + 1) ++ (dumpVal (d + 1) e ++ (dumpElems (d + 1) es
            ++ (nlIndent d ++ (93 :: rest))))) := by
        show (91 :: (nlIndent (d + 1) ++ dumpVal (d + 1) e ++ dumpElems (d + 1) es
          ++ nlIndent d ++ [93])) ++ rest = _
        simp [List.append_assoc]
      rw [harr]
      have hskip : skipJsonWs (nlIndent (d + 1) ++ (dumpVal (d + 1) e
            ++ (dumpElems (d + 1) es ++ (nlIndent d ++ (93 :: rest)))))
          = dumpVal (d + 1) e ++ (dumpElems (d + 1) es ++ (nlIndent d ++ (93 :: rest))) := by
        rw [skipJsonWs_append_ws _ _ (nlIndent_ws (d + 1))]
        rw [hd0]
        exact skipJsonWs_not_ws _ (by simp [head_class_not_ws c0 hcls])
      have h93x : ¬ ((skipJsonWs (nlIndent (d + 1) ++ (dumpVal (d + 1) e
            ++ (dumpElems (d + 1) es ++ (nlIndent d ++ (93 :: rest)))))).headD 0 = 93) := by
        rw [hskip, hd0]
        simpa using head_class_ne c0 93 hcls (by tauto)
      rw [parseJsonVal_arrStep g _ h93x, hskip,
        rtElems e es (d + 1) d g rest hwfe.1 hwfe.2 hreq' hrest]
      rfl
  | .obj [], _, fuel, rest, _, hreq, _ => by
    rcases fuel with _ | g
    · exact absurd hreq (by simp [reqVal])
    · exact parseJsonVal_objNil g rest
  | .obj (⟨k, v⟩ :: ms), d, fuel, rest, hwf, hreq, hrest => by
    rcases fuel with _ | g
    · exact absurd hreq (by simp [reqVal])
    · have hwfm : keysNodup ((k, v) :: ms) = true ∧ wfStr k = true ∧ v.wf = true ∧
          jsonWfMembers ms = true := by
        simp only [Json.wf, jsonWfMembers, Bool.and_eq_true] at hwf
        tauto
      have hreq' : reqMembers (k, v) ms ≤ g := by
        simp only [reqVal] at hreq
        omega
      have hobj : dumpVal d (.obj ((k, v) :: ms)) ++ rest
          = 123 :: (nlIndent (d + 1) ++ (dumpStr k ++ ([58, 32] ++ (dumpVal (d + 1) v
            ++ (dumpMembers (d + 1) ms ++ (nlIndent d ++ (125 :: rest))))))) := by
        show (123 :: (nlIndent (d + 1) ++ dumpStr (k, v).1 ++ [58, 32]
          ++ dumpVal (d + 1) (k, v).2 ++ dumpMembers (d + 1) ms ++ nlIndent d ++ [125]))
            ++ rest = _
        simp [List.append_assoc]
      rw [hobj]
      have hskip : skipJsonWs (nlIndent (d + 1) ++ (dumpStr k ++ ([58, 32]
            ++ (dumpVal (d + 1) v ++ (dumpMembers (d + 1) ms
              ++ (nlIndent d ++ (125 :: rest)))))))
          = dumpStr k ++ ([58, 32] ++ (dumpVal (d + 1) v ++ (dumpMembers (d + 1) ms
              ++ (nlIndent d ++ (125 :: rest))))) := by
        rw [skipJsonWs_append_ws _ _ (nlIndent_ws (d + 1))]
        rw [show dumpStr k ++ ([58, 32] ++ (dumpVal (d + 1) v ++ (dumpMembers (d + 1) ms
          ++ (nlIndent d ++ (125 :: rest)))))
          = 34 :: ((k.flatMap escCp ++ [34]) ++ ([58, 32] ++ (dumpVal (d + 1) v
            ++ (dumpMembers (d + 1) ms ++ (nlIndent d ++ (125 :: rest)))))) from by
          simp [dumpStr]]
        exact skipJsonWs_not_ws _ (by simp [isJsonWs])
      have h125x : ¬ ((skipJsonWs (nlIndent (d + 1) ++ (dumpStr k ++ ([58, 32]
            ++ (dumpVal (d + 1) v ++ (dumpMembers (d + 1) ms
              ++ (nlIndent d ++ (125 :: rest)))))))).headD 0 = 125) := by
        rw [hskip]
        rw [show dumpStr k ++ ([58, 32] ++ (dumpVal (d + 1) v ++ (dumpMembers (d + 1) ms
          ++ (nlIndent d ++ (125 :: rest)))))
          = 34 :: ((k.flatMap escCp ++ [34]) ++ ([58, 32] ++ (dumpVal (d + 1) v
            ++ (dumpMembers (d + 1) ms ++ (nlIndent d ++ (125 :: rest)))))) from by
          simp [dumpStr]]
        simp
      rw [parseJsonVal_objStep g _ h125x, hskip,
        rtMembers k v ms (d + 1) d g rest hwfm.2.1 hwfm.2.2.1 hwfm.2.2.2 hreq' hrest]
      simp [jsonDictOf_nodup _ hwfm.1]
termination_by v _ _ _ _ _ _ => sizeOf v

/-- Array elements: the printed tail `e, es … ]` parses back. -/
theorem rtElems : ∀ (e : Json) (es : List Json) (din dout fuel : Nat) (rest : List Nat),
    e.wf = true → jsonWfList es = true → reqElems e es ≤ fuel → numDelim rest = true →
    parseJsonElems fuel (dumpVal din e ++ (dumpElems din es
      ++ (nlIndent dout ++ (93 :: rest)))) = some (e :: es, rest)
  | e, es, din, dout, fuel, rest, hwfe, hwfes, hreq, hrest => by
    rcases fuel with _ | g
    · have h1 : 1 ≤ reqElems e es := by cases es <;> simp [reqElems]
      omega
    · have hreqe : reqVal e ≤ g := by
        cases es <;> (simp only [reqElems] at hreq; omega)
      have hdelim1 : numDelim (dumpElems din es ++ (nlIndent dout ++ (93 :: rest))) = true := by
        cases es with
        | nil => simp [dumpElems, nlIndent, numDelim]
        | cons x xs => simp [dumpElems, numDelim]
      simp only [parseJsonElems]
      rw [rtVal e din g _ hwfe hreqe hdelim1]
      cases es with
      | nil =>
        simp only [dumpElems, List.nil_append]
        rw [skipJsonWs_append_ws _ _ (nlIndent_ws dout)]
        rw [skipJsonWs, if_neg (by decide : ¬(isJsonWs 93 = true))]
        simp
      | cons x xs =>
        have hwfx : x.wf = true ∧ jsonWfList xs = true := by
          simp only [jsonWfList, Bool.and_eq_true] at hwfes
          exact hwfes
        have hreq' : reqElems x xs ≤ g := by
          simp only [reqElems] at hreq
          omega
        simp only [dumpElems, List.cons_append, List.append_assoc]
        rw [skipJsonWs, if_neg (by decide : ¬(isJsonWs 44 = true))]
        have hrec : parseJsonElems g (nlIndent din ++ (dumpVal din x
            ++ (dumpElems din xs ++ (nlIndent dout ++ (93 :: rest)))))
            = some (x :: xs, rest) := by
          rw [parseJsonElems_ws_pre g _ _ (nlIndent_ws din)]
          exact rtElems x xs din dout g rest hwfx.1 hwfx.2 hreq' hrest
        simp only [List.headD_cons, List.tail_cons]
        norm_num
        simpa using hrec
termination_by e es _ _ _ _ _ _ _ _ => 1 + sizeOf e + sizeOf es

/-- Object members: the printed tail `"k": v, ms … }` parses back. -/
theorem rtMembers : ∀ (k : PyStr) (v : Json) (ms : List (PyStr × Json))
    (din dout fuel : Nat) (rest : List Nat),
    wfStr k = true → v.wf = true → jsonWfMembers ms = true →
    reqMembers (k, v) ms ≤ fuel → numDelim rest = true →
    parseJsonMembers fuel (dumpStr k ++ ([58, 32] ++ (dumpVal din v
      ++ (dumpMembers din ms ++ (nlIndent dout ++ (125 :: rest))))))
      = some ((k, v) :: ms, rest)
  | k, v, ms, din, dout, fuel, rest, hwk, hwv, hwms, hreq, hrest => by
    rcases fuel with _ | g
    · have h1 : 1 ≤ reqMembers (k, v) ms := by cases ms <;> simp [reqMembers]
      omega
    · have hklen : k.length + 1 ≤ g := by
        cases ms <;> (simp only [reqMembers] at hreq; omega)
      have hreqv : reqVal v ≤ g := by
        cases ms <;> (simp only [reqMembers] at hreq; omega)
      have hdelim1 : numDelim (dumpMembers din ms ++ (nlIndent dout ++ (125 :: rest)))
          = true := by
        cases ms with
        | nil => simp [dumpMembers, nlIndent, numDelim]
        | cons m2 ms2 => simp [dumpMembers, numDelim]
      simp only [parseJsonMembers]
      rw [show dumpStr k ++ ([58, 32] ++ (dumpVal din v ++ (dumpMembers din ms
        ++ (nlIndent dout ++ (125 :: rest)))))
        = 34 :: (k.flatMap escCp ++ (34 :: (58 :: (32 :: (dumpVal din v
          ++ (dumpMembers din ms ++ (nlIndent dout ++ (125 :: rest)))))))) from by
        simp [dumpStr]]
      rw [skipJsonWs, if_neg (by decide : ¬(isJsonWs 34 = true))]
      simp only [List.headD_cons, List.tail_cons]
      norm_num
      rw [readStrAux_flatMap k g [] _ hwk hklen]
      simp only [List.reverse_nil, List.nil_append]
      rw [skipJsonWs, if_neg (by decide : ¬(isJsonWs 58 = true))]
      simp only [List.headD_cons, List.tail_cons]
      norm_num
      have hval : parseJsonVal g (32 :: (dumpVal din v ++ (dumpMembers din ms
          ++ (nlIndent dout ++ (125 :: rest)))))
          = some (v, dumpMembers din ms ++ (nlIndent dout ++ (125 :: rest))) := by
        rw [show (32 :: (dumpVal din v ++ (dumpMembers din ms
          ++ (nlIndent dout ++ (125 :: rest)))))
          = [32] ++ (dumpVal din v ++ (dumpMembers din ms
            ++ (nlIndent dout ++ (125 :: rest)))) from rfl]
        rw [parseJsonVal_ws_pre g _ _ (by simp [isJsonWs])]
        exact rtVal v din g _ hwv hreqv hdelim1
      rw [hval]
      cases ms with
      | nil =>
        simp only [dumpMembers, List.nil_append]
        rw [skipJsonWs_append_ws _ _ (nlIndent_ws dout)]
        rw [skipJsonWs, if_neg (by decide : ¬(isJsonWs 125 = true))]
        simp
      | cons m2 ms2 =>
        have hwfm2 : wfStr m2.1 = true ∧ (m2.2).wf = true ∧ jsonWfMembers ms2 = true := by
          rcases m2 with ⟨k2, v2⟩
          simp only [jsonWfMembers, Bool.and_eq_true] at hwms
          tauto
        have hreq2 : reqMembers (m2.1, m2.2) ms2 ≤ g := by
          rcases m2 with ⟨k2, v2⟩
          show reqMembers (k2, v2) ms2 ≤ g
          simp only [reqMembers] at hreq
          omega
        simp only [dumpMembers, List.cons_append, List.append_assoc]
        rw [skipJsonWs, if_neg (by decide : ¬(isJsonWs 44 = true))]
        have hrec : parseJsonMembers g (nlIndent din ++ (dumpStr m2.1
            ++ ([58, 32] ++ (dumpVal din m2.2 ++ (dumpMembers din ms2
              ++ (nlIndent dout ++ (125 :: rest)))))))
            = some (m2 :: ms2, rest) := by
          rw [parseJsonMembers_ws_pre g _ _ (nlIndent_ws din)]
          exact rtMembers m2.1 m2.2 ms2 din dout g rest hwfm2.1 hwfm2.2.1
            hwfm2.2.2 hreq2 hrest
        simp only [List.headD_cons, List.tail_cons]
        norm_num
        simpa using hrec
termination_by k v ms _ _ _ _ _ _ _ _ _ => 2 + sizeOf v + sizeOf ms
decreasing_by
  all_goals simp_wf
  all_goals try omega
  all_goals rcases m2 with ⟨k2, v2⟩
  all_goals try subst ms
  all_goals simp
  all_goals omega
end

/-- Every code point escapes to at least one output code point. -/
theorem escCp_len (c : Nat) : 1 ≤ (escCp c).length := by
  unfold escCp
  repeat' split
  all_goals simp [hex4Of]

/-- The escaped form of a string is at least as long as the string. -/
theorem flatMap_escCp_len (s : PyStr) : s.length ≤ (s.flatMap escCp).length := by
  induction s with
  | nil => simp
  | cons c rest ih =>
    have h := escCp_len c
    simp only [List.flatMap_cons, List.length_append, List.length_cons]
    omega

mutual
/-- The parser fuel a value demands is within one of its printed length. -/
theorem reqVal_le_dump : ∀ (v : Json) (d : Nat), reqVal v ≤ (dumpVal d v).length + 1
  | .null, d => by simp [reqVal, dumpVal, dumpScalar]
  | .bool true, d => by simp [reqVal, dumpVal, dumpScalar]
  | .bool false, d => by simp [reqVal, dumpVal, dumpScalar]
  | .num n, d => by simp [reqVal, dumpVal, dumpScalar]
  | .fnum f, d => by simp [reqVal, dumpVal, dumpScalar]
  | .nan, d => by simp [reqVal, dumpVal, dumpScalar]
  | .inf b, d => by cases b <;> simp [reqVal, dumpVal, dumpScalar]
  | .str s, d => by
    have h := flatMap_escCp_len s
    simp only [reqVal, dumpVal, dumpScalar, dumpStr, List.length_cons, List.length_append]
    omega
  | .arr [], d => by simp [reqVal, dumpVal]
  | .arr (e :: es), d => by
    have h := reqElems_le_dump e es (d + 1)
    simp only [reqVal, dumpVal, nlIndent, List.length_cons, List.length_append,
      List.length_replicate]
    omega
  | .obj [], d => by simp [reqVal, dumpVal]
  | .obj (⟨k, v⟩ :: ms), d => by
    have h := reqMembers_le_dump k v ms (d + 1)
    simp only [reqVal, reqMembers, dumpVal, dumpStr, nlIndent, List.length_cons,
      List.length_append, List.length_replicate] at h ⊢
    omega
termination_by v _ => sizeOf v

/-- Fuel bound for a printed element tail. -/
theorem reqElems_le_dump : ∀ (e : Json) (es : List Json) (d : Nat),
    reqElems e es ≤ (dumpVal d e).length + (dumpElems d es).length + 2
  | e, [], d => by
    have h := reqVal_le_dump e d
    simp only [reqElems, dumpElems, List.length_nil]
    omega
  | e, x :: xs, d => by
    have h1 := reqVal_le_dump e d
    have h2 := reqElems_le_dump x xs d
    simp only [reqElems, dumpElems, nlIndent, List.length_cons, List.length_append,
      List.length_replicate]
    omega
termination_by e es _ => 1 + sizeOf e + sizeOf es

/-- Fuel bound for a printed member tail. -/
theorem reqMembers_le_dump : ∀ (k : PyStr) (v : Json) (ms : List (PyStr × Json)) (d : Nat),
    reqMembers (k, v) ms
      ≤ (dumpStr k).length + (dumpVal d v).length + (dumpMembers d ms).length + 2
  | k, v, [], d => by
    have h1 := flatMap_escCp_len k
    have h2 := reqVal_le_dump v d
    simp only [reqMembers, dumpMembers, dumpStr, List.length_nil, List.length_cons,
      List.length_append]
    omega
  | k, v, ⟨k2, v2⟩ :: ms, d => by
    have h1 := flatMap_escCp_len k
    have h2 := reqVal_le_dump v d
    have h3 := reqMembers_le_dump k2 v2 ms d
    have h4 := flatMap_escCp_len k2
    simp only [reqMembers, dumpMembers, dumpStr, nlIndent, List.length_cons,
      List.length_append, List.length_replicate] at h3 ⊢
    omega
termination_by _ v ms _ => 2 + sizeOf v + sizeOf ms
end

/-- `json.loads` inverts `json.dumps(v, indent=2)` on well-formed values:
the fuel budget `2·|s| + 8` covers the demand and the round-trip landing on
an empty remainder yields the value itself. -/
theorem jsonLoads_dumpIndent2 (v : Json) (hwf : v.wf = true) :
    jsonLoads (dumpIndent2 v) = some v := by
  have hb := reqVal_le_dump v 0
  have hfuel : reqVal v ≤ 2 * (dumpVal 0 v).length + 8 := by omega
  have h := rtVal v 0 (2 * (dumpVal 0 v).length + 8) [] hwf hfuel (by simp [numDelim])
  rw [List.append_nil] at h
  simp only [jsonLoads, dumpIndent2]
  rw [h]
  simp [skipJsonWs]

/-- `natToDecAux` emits at most `b` digits below `10 ^ b`. -/
theorem natToDecAux_len (fuel : Nat) : ∀ (n b : Nat), n < 10 ^ b →
    (natToDecAux fuel n).length ≤ b := by
  induction fuel with
  | zero => intro n b _; simp [natToDecAux]
  | succ f ih =>
    intro n b h
    simp only [natToDecAux]
    split
    · simp
    · have hb : 1 ≤ b := by
        by_contra hb0
        have : b = 0 := by omega
        subst this
        simp at h
        omega
      have h10 : 10 ^ b = 10 ^ (b - 1) * 10 := by
        conv_lhs => rw [show b = (b - 1) + 1 by omega]
        rw [pow_succ]
      have h' : n / 10 < 10 ^ (b - 1) := by
        refine (Nat.div_lt_iff_lt_mul (by norm_num)).mpr ?_
        omega
      have := ih (n / 10) (b - 1) h'
      simp only [List.length_append, List.length_cons, List.length_nil]
      omega

/-- The decimal numeral of `n < 10 ^ w` has at most `w` digits. -/
theorem natToDec_len (n w : Nat) (hn : n < 10 ^ w) (hw : 1 ≤ w) :
    (natToDec n).length ≤ w := by
  unfold natToDec
  split
  · simpa using hw
  · exact natToDecAux_len (n + 1) n w hn

/-- Zero-padding to width `w` yields exactly `w` digit code points when the
numeral fits. -/
theorem padToWidth_spec (w n : Nat) (hn : n < 10 ^ w) (hw : 1 ≤ w) :
    (padToWidth w n).length = w ∧ ∀ c ∈ padToWidth w n, isDigitCp c = true := by
  have hl := natToDec_len n w hn hw
  constructor
  · simp only [padToWidth, List.length_append, List.length_replicate]
    omega
  · intro c hc
    simp only [padToWidth, List.mem_append, List.mem_replicate] at hc
    rcases hc with ⟨_, h48⟩ | hmem
    · simp [h48, isDigitCp]
    · exact natToDec_all_digits n c hmem

/-- `random.choices` over the 36-letter alphabet: as many characters as
picks, all from the alphabet. -/
theorem randChars_spec (picks : List Nat) (h : ∀ i ∈ picks, i < 36) :
    (randChars picks).length = picks.length ∧
      ∀ c ∈ randChars picks, c ∈ RAND_ALPHABET := by
  constructor
  · simp [randChars]
  · intro c hc
    simp only [randChars, List.mem_map] at hc
    obtain ⟨i, hi, hrfl⟩ := hc
    subst hrfl
    have hlen : i < RAND_ALPHABET.length := by
      rw [show RAND_ALPHABET.length = 36 from rfl]
      exact h i hi
    rw [List.getD_eq_getElem _ _ hlen]
    exact List.getElem_mem _

/-- **C7.** A JSON value `v` accepted by the POST responder (media type
`application/json`, body UTF-8-decodable and loadable as `v`, `v` in the
float-free well-formed fragment) produces: a written file named
`upload_<YYYYMMDD_HHMMSS>_<xxxx>.json` — eight digit code points, an
underscore, six digit code points, four characters from `[a-z0-9]` — whose
text `json.dumps(v, indent=2)` loads back to `v` exactly (the round-trip);
and a 201 response with `Content-Type: application/json` whose body is the
compact dump of the success object carrying
`/uploads/<filename>`. -/
theorem C7_post_roundtrip (dateStr : PyStr) (now : Timestamp) (picks : List Nat)
    (headers : PyDict) (body : Bytes) (ka : Bool) (txt : PyStr) (v : Json)
    (hct : pystrip (match splitOnceSub (pys ";") (dictGetD headers (pys "Content-Type") []) with
      | some (a, _) => a
      | none => dictGetD headers (pys "Content-Type") []) = pys "application/json")
    (hdec : utf8Decode body = some txt)
    (hload : jsonLoads txt = some v)
    (hwf : v.wf = true)
    (hy : now.y < 10000) (hmo : now.mo < 100) (hd : now.d < 100)
    (hh : now.h < 100) (hmi : now.mi < 100) (hs : now.s < 100)
    (hp4 : picks.length = 4) (hpr : ∀ i ∈ picks, i < 36) :
    (handle_post dateStr now picks headers body ka).written
      = some (uploadFilename now picks, dumpIndent2 v) ∧
    jsonLoads (dumpIndent2 v) = some v ∧
    (∃ date time rnd,
      uploadFilename now picks
        = pys "upload_" ++ date ++ [95] ++ time ++ [95] ++ rnd ++ pys ".json" ∧
      date.length = 8 ∧ (∀ c ∈ date, isDigitCp c = true) ∧
      time.length = 6 ∧ (∀ c ∈ time, isDigitCp c = true) ∧
      rnd.length = 4 ∧ (∀ c ∈ rnd, c ∈ RAND_ALPHABET)) ∧
    (handle_post dateStr now picks headers body ka).resp.status = 201 ∧
    dictGet (handle_post dateStr now picks headers body ka).resp.headers
      (pys "Content-Type") = some (pys "application/json") ∧
    (handle_post dateStr now picks headers body ka).resp.body
      = utf8Encode (dumpCompactVal (.obj
          [(pys "status", .str (pys "success")),
           (pys "message", .str (pys "File created successfully")),
           (pys "filepath", .str (pys "/uploads/" ++ uploadFilename now picks))])) := by
  have hout : handle_post dateStr now picks headers body ka
      = ⟨make_response dateStr 201 (pys "Created")
          [(pys "Content-Type", pys "application/json"),
           (pys "Content-Length", natToDec (utf8Encode (dumpCompactVal (Json.obj
             [(pys "status", .str (pys "success")),
              (pys "message", .str (pys "File created successfully")),
              (pys "filepath", .str (pys "/uploads/" ++ uploadFilename now picks))]))).length),
           (pys "Connection", connectionValue ka)]
          (utf8Encode (dumpCompactVal (Json.obj
            [(pys "status", .str (pys "success")),
             (pys "message", .str (pys "File created successfully")),
             (pys "filepath", .str (pys "/uploads/" ++ uploadFilename now picks))]))),
         some (uploadFilename now picks, dumpIndent2 v)⟩ := by
    simp [handle_post, hct, hdec, hload]
  refine ⟨by rw [hout], jsonLoads_dumpIndent2 v hwf, ?_, by rw [hout]; simp [make_response],
    ?_, by rw [hout]; simp [make_response]⟩
  · refine ⟨padToWidth 4 now.y ++ padToWidth 2 now.mo ++ padToWidth 2 now.d,
      padToWidth 2 now.h ++ padToWidth 2 now.mi ++ padToWidth 2 now.s,
      randChars picks, ?_, ?_, ?_, ?_, ?_, ?_, ?_⟩
    · simp [uploadFilename, fmtTimestamp, List.append_assoc]
    · have h1 := (padToWidth_spec 4 now.y (by norm_num [hy]) (by norm_num)).1
      have h2 := (padToWidth_spec 2 now.mo (by norm_num [hmo]) (by norm_num)).1
      have h3 := (padToWidth_spec 2 now.d (by norm_num [hd]) (by norm_num)).1
      simp only [List.length_append]
      omega
    · intro c hc
      simp only [List.mem_append] at hc
      rcases hc with (hc | hc) | hc
      · exact (padToWidth_spec 4 now.y (by norm_num [hy]) (by norm_num)).2 c hc
      · exact (padToWidth_spec 2 now.mo (by norm_num [hmo]) (by norm_num)).2 c hc
      · exact (padToWidth_spec 2 now.d (by norm_num [hd]) (by norm_num)).2 c hc
    · have h1 := (padToWidth_spec 2 now.h (by norm_num [hh]) (by norm_num)).1
      have h2 := (padToWidth_spec 2 now.mi (by norm_num [hmi]) (by norm_num)).1
      have h3 := (padToWidth_spec 2 now.s (by norm_num [hs]) (by norm_num)).1
      simp only [List.length_append]
      omega
    · intro c hc
      simp only [List.mem_append] at hc
      rcases hc with (hc | hc) | hc
      · exact (padToWidth_spec 2 now.h (by norm_num [hh]) (by norm_num)).2 c hc
      · exact (padToWidth_spec 2 now.mi (by norm_num [hmi]) (by norm_num)).2 c hc
      · exact (padToWidth_spec 2 now.s (by norm_num [hs]) (by norm_num)).2 c hc
    · rw [(randChars_spec picks hpr).1, hp4]
    · exact (randChars_spec picks hpr).2
  · rw [hout]
    rw [dictGet_make_response _ _ _ _ _ _ (by rfl)]
    rfl

/-- Closed instance of C7: the body `{"a": [1, 2]}` with media type
`application/json` is written back pretty-printed and loads to the same
value. -/
theorem C7_post_roundtrip_witness :
    (handle_post (pys "D") ⟨2025, 1, 2, 3, 4, 5⟩ [0, 1, 35, 9]
        [(pys "Content-Type", pys "application/json")]
        (pys "\x7b\"a\": [1, 2]\x7d") true).written
      = some (uploadFilename ⟨2025, 1, 2, 3, 4, 5⟩ [0, 1, 35, 9],
          dumpIndent2 (.obj [(pys "a", .arr [.num 1, .num 2])])) ∧
    jsonLoads (dumpIndent2 (.obj [(pys "a", .arr [.num 1, .num 2])]))
      = some (.obj [(pys "a", .arr [.num 1, .num 2])]) ∧
    (∃ date time rnd,
      uploadFilename ⟨2025, 1, 2, 3, 4, 5⟩ [0, 1, 35, 9]
        = pys "upload_" ++ date ++ [95] ++ time ++ [95] ++ rnd ++ pys ".json" ∧
      date.length = 8 ∧ (∀ c ∈ date, isDigitCp c = true) ∧
      time.length = 6 ∧ (∀ c ∈ time, isDigitCp c = true) ∧
      rnd.length = 4 ∧ (∀ c ∈ rnd, c ∈ RAND_ALPHABET)) ∧
    (handle_post (pys "D") ⟨2025, 1, 2, 3, 4, 5⟩ [0, 1, 35, 9]
        [(pys "Content-Type", pys "application/json")]
        (pys "\x7b\"a\": [1, 2]\x7d") true).resp.status = 201 ∧
    dictGet (handle_post (pys "D") ⟨2025, 1, 2, 3, 4, 5⟩ [0, 1, 35, 9]
        [(pys "Content-Type", pys "application/json")]
        (pys "\x7b\"a\": [1, 2]\x7d") true).resp.headers
      (pys "Content-Type") = some (pys "application/json") ∧
    (handle_post (pys "D") ⟨2025, 1, 2, 3, 4, 5⟩ [0, 1, 35, 9]
        [(pys "Content-Type", pys "application/json")]
        (pys "\x7b\"a\": [1, 2]\x7d") true).resp.body
      = utf8Encode (dumpCompactVal (.obj
          [(pys "status", .str (pys "success")),
           (pys "message", .str (pys "File created successfully")),
           (pys "filepath", .str (pys "/uploads/" ++ uploadFilename
             ⟨2025, 1, 2, 3, 4, 5⟩ [0, 1, 35, 9]))])) :=
  C7_post_roundtrip (pys "D") ⟨2025, 1, 2, 3, 4, 5⟩ [0, 1, 35, 9]
    [(pys "Content-Type", pys "application/json")]
    (pys "\x7b\"a\": [1, 2]\x7d") true
    (pys "\x7b\"a\": [1, 2]\x7d") (.obj [(pys "a", .arr [.num 1, .num 2])])
    (by decide) (by rfl) (by rfl) (by rfl)
    (by decide) (by decide) (by decide) (by decide) (by decide) (by decide)
    (by decide) (by decide)

/-- Closed instance for C2 (amended): with duplicate `X` lines and a
lowercase `x` line, the lookup under `X` is the last exact-case
occurrence. -/
theorem C2_header_lookup_exact_last_witness :
    dictGet (⟨pys "GET", pys "/", pys "HTTP/1.1",
      [(pys "X", pys "2"), (pys "x", pys "a")], []⟩ : Request).headers (pys "X") =
      some (pys "2") := by
  have h := C2_header_lookup_exact_last
    (pys "GET / HTTP/1.1\r\nX: 1\r\nx: a\r\nX: 2\r\n\r\n")
    ⟨pys "GET", pys "/", pys "HTTP/1.1", [(pys "X", pys "2"), (pys "x", pys "a")], []⟩
    (pys "X") (by decide)
  rw [h]
  decide

/-- Closed instance for C9 at a concrete request. -/
theorem C9_post_without_content_length_witness :
    postBodyStep [(pys "Content-Type", pys "application/json")] (pys "[1, 2]") [] =
      .proceed (pys "[1, 2]") ∧
    (postDispatch (pys "D") ⟨2025, 1, 2, 3, 4, 5⟩ [0, 1, 2, 3]
      [(pys "Content-Type", pys "application/json")] (pys "[1, 2]") [] true).resp.status
      = 201 := by
  have h := (C9_post_without_content_length.1 (pys "D") ⟨2025, 1, 2, 3, 4, 5⟩
    [0, 1, 2, 3] [(pys "Content-Type", pys "application/json")]
    (pys "[1, 2]") [] true) (by decide)
  exact ⟨h.1, by rw [h.2]; rfl⟩

end Srv
